import Mathlib

/-!
# dbfs: the table cache and the filesystem callbacks

A shallow embedding of `src/src/db_utils.cpp` and `src/src/dbfs.cpp`.

* `std::string` and `std::vector<char>` are `List Char` (text without an
  embedded NUL, as every name reaches the callbacks through `const char*`).
* `std::map<TableName, TableAttr>` is an association list kept in ascending
  key order; `TableList.Ordered` is the representation invariant.
* `size_t` and `unsigned long` are `Nat` reduced modulo `2^64`, `off_t` is
  `Int`, `int` results are `Int` after the conversion `toInt`.
* The external world of one load (the PostgreSQL server, the clock, the
  configuration file) is a `DataSource` value: the answer to a query and
  the clock reading are taken as fixed while one load runs.
* Logging calls have no effect on the modelled state and are left out.
* `refreshHdlr` and the callbacks are first given as functions of a run
  without interleaving; `Sync` then gives the statements of the gate and of
  the handler one by one, as two threads whose steps interleave.
* `main` starts after the `getopt` loop, its variables in `Options`.
-/

namespace dbfsutils

/-- The type `std::string`. -/
abbrev Str := List Char

abbrev TableName := Str
abbrev RowNum := Nat
abbrev TableData := List Char

/-- The type `struct timeval`. -/
structure Timeval where
  tv_sec : Int
  tv_usec : Int
deriving DecidableEq, Repr

/-- The type `struct timespec`. -/
structure Timespec where
  tv_sec : Int
  tv_nsec : Int
deriving DecidableEq, Repr

/-- The fields of `struct stat` the program ever assigns; every other field
stays at its zero initialisation. -/
structure Stat where
  st_mode : Nat
  st_nlink : Nat
  st_uid : Nat
  st_gid : Nat
  st_size : Int
  st_atim : Timespec
  st_mtim : Timespec
  st_ctim : Timespec
deriving DecidableEq, Repr

/-- The value-initialised `Stat` written by `= {}`. -/
def Stat.zero : Stat :=
  { st_mode := 0, st_nlink := 0, st_uid := 0, st_gid := 0, st_size := 0,
    st_atim := ⟨0, 0⟩, st_mtim := ⟨0, 0⟩, st_ctim := ⟨0, 0⟩ }

/-- The tuple `std::tuple<RowNum, TableData, Stat>`, fields in the order of
`enum ATTRIB { RNUM, DATA, SSTAT }`. -/
structure TableAttr where
  rnum : RowNum
  data : TableData
  sstat : Stat
deriving DecidableEq, Repr

/-- The value-initialised tuple that `std::map::operator[]` inserts. -/
def TableAttr.default : TableAttr :=
  { rnum := 0, data := [], sstat := Stat.zero }

/-- The map `std::map<TableName, TableAttr>` as its sequence of pairs in
iteration order. -/
abbrev TableList := List (TableName × TableAttr)

/-- The comparison `std::less<std::string>`: strict lexicographic order. -/
def strLt : Str → Str → Bool
  | [], [] => false
  | [], _ :: _ => true
  | _ :: _, [] => false
  | a :: as, b :: bs =>
    if a < b then true else if b < a then false else strLt as bs

namespace TableList

/-- Representation invariant of `std::map`: keys strictly ascending. -/
def Ordered (db : TableList) : Prop :=
  db.Pairwise (fun a b => strLt a.1 b.1 = true)

instance (db : TableList) : Decidable (Ordered db) :=
  inferInstanceAs (Decidable
    (List.Pairwise (fun (a b : TableName × TableAttr) => strLt a.1 b.1 = true) db))

/-- The keys in iteration order. -/
def keys (db : TableList) : List TableName := db.map Prod.fst

/-- The lookup `db.find(k)`; `none` stands for `db.end()`. -/
def find (k : TableName) : TableList → Option TableAttr
  | [] => none
  | (k', v) :: rest => if k' = k then some v else find k rest

/-- Store `v` under `k`: overwrite the mapped value when the key is present,
otherwise insert the pair at its place in key order. -/
def set (k : TableName) (v : TableAttr) : TableList → TableList
  | [] => [(k, v)]
  | (k', v') :: rest =>
    if k' = k then (k', v) :: rest
    else if strLt k k' then (k, v) :: (k', v') :: rest
    else (k', v') :: set k v rest

/-- The statement `db[k];`: insert a value-initialised entry when `k` is
absent, leave the map alone otherwise. -/
def index (k : TableName) (db : TableList) : TableList :=
  match find k db with
  | some _ => db
  | none => set k TableAttr.default db

/-- The reference `db[k]` read as a value (after `index`). -/
def ref (k : TableName) (db : TableList) : TableAttr :=
  (find k db).getD TableAttr.default

end TableList

/-- The class `DbConnExc`. -/
structure DbConnExc where
  errorCode : Int
  errorMessage : Str
deriving DecidableEq, Repr

/-- The constructor `DbConnExc(std::string&&)`. -/
def DbConnExc.ofString (errString : Str) : DbConnExc :=
  { errorCode := 0, errorMessage := errString }

/-- What a `throw` expression raises: the source throws `DbConnExc` objects
by value, while a handler may name either the object or a pointer to it;
`DbConnExc` does not derive from `std::exception`, the third kind. -/
inductive Thrown where
  | byValue (ex : DbConnExc)
  | byPointer (ex : DbConnExc)
  | stdException (what : Str)
deriving DecidableEq, Repr

/-- The libpq enumeration `ExecStatusType`. -/
inductive ExecStatusType where
  | PGRES_EMPTY_QUERY
  | PGRES_COMMAND_OK
  | PGRES_TUPLES_OK
  | PGRES_COPY_OUT
  | PGRES_COPY_IN
  | PGRES_BAD_RESPONSE
  | PGRES_NONFATAL_ERROR
  | PGRES_FATAL_ERROR
  | PGRES_COPY_BOTH
  | PGRES_SINGLE_TUPLE
deriving DecidableEq, Repr

/-- The libpq type `PGresult` through its accessors `PQresultStatus`,
`PQntuples`, `PQnfields` and `PQgetvalue`. -/
structure PGresult where
  status : ExecStatusType
  ntuples : Nat
  nfields : Nat
  getvalue : Nat → Nat → Str

/-- The world outside the process during one load. -/
structure DataSource where
  /-- Whether `PQstatus(PQconnectdb(s))` is `CONNECTION_BAD`. -/
  connectionBad : Str → Bool
  /-- The call `PQexecParams(conn, command, n, nullptr, params, ...)`. -/
  exec : Str → List Str → PGresult
  /-- The text of `PQerrorMessage(conn)`. -/
  errorMessage : Str
  /-- The reading of `gettimeofday`. -/
  now : Timeval
  /-- The size reported by `stat(file)`; `none` when it returns `-1`. -/
  statSize : Str → Option Int
  /-- The text of `strerror(errno)`. -/
  strerror : Str
  /-- The lines `std::getline` yields from the file. -/
  getlines : Str → List Str
  /-- The helper `typeutils::safeSizeT`, declared in `Types.hpp`; `none`
  when it throws `TypesUtilsException`. -/
  safeSizeT : Nat → Option Int

/-- The constant `S_IFREG` of `sys/stat.h`. -/
def S_IFREG : Nat := 0o100000

/-- The constant `S_IFDIR` of `sys/stat.h`. -/
def S_IFDIR : Nat := 0o040000

/-- The state of a `PsqlConnection` object. -/
structure PsqlConnection where
  statTempl : Stat
  connectionString : Str
deriving DecidableEq, Repr

/-- The constructor `PsqlConnection::PsqlConnection`, given the results of
`getuid()` and `getgid()`. -/
def PsqlConnection.new (uid gid : Nat) : PsqlConnection :=
  { statTempl := { Stat.zero with
      st_mode := S_IFREG ||| 0o444, st_nlink := 2, st_uid := uid, st_gid := gid },
    connectionString := [] }

/-- The converting assignment to an `int`: reduction modulo `2^32` read as a
signed value. -/
def toInt (n : Nat) : Int :=
  if n % 2 ^ 32 < 2 ^ 31 then (n % 2 ^ 32 : Nat) else ((n % 2 ^ 32 : Nat) : Int) - 2 ^ 32

/-- The conversion of a signed value to `size_t`. -/
def toSizeT (i : Int) : Nat := (i % 2 ^ 64).toNat

/-- The inner loop of `loadTable`: the fields of row `r`, each followed by
`;`, then the newline that ends the row. -/
def loadRow (result : PGresult) (retFields : Nat) (tdata : TableData) (r : Nat) :
    TableData :=
  (List.range retFields).foldl
    (fun td f => td ++ result.getvalue r f ++ [';']) tdata ++ ['\n']

/-- The outer loop of `loadTable` over the rows `0 .. retRows - 1`. -/
def loadRows (result : PGresult) (retRows retFields : Nat) (tdata : TableData) :
    TableData :=
  (List.range retRows).foldl (loadRow result retFields) tdata

/-- The exception of the failing `switch` arms; `EMPTY_QUERY` falls through
the assignment of `NONFATAL_ERROR`. -/
def queryError (ds : DataSource) (status : ExecStatusType) : Thrown :=
  let errBuff : Str := []
  let errBuff := if status = .PGRES_EMPTY_QUERY then "Empty Query: ".toList else errBuff
  let errBuff :=
    if status = .PGRES_EMPTY_QUERY ∨ status = .PGRES_NONFATAL_ERROR
    then "Nofatal Error: ".toList else errBuff
  .byValue (DbConnExc.ofString ("Query Error: ".toList ++ errBuff ++ ds.errorMessage))

/-- The first statements of `loadTable`: the command `cmdBuff` built from
`listContPrefix` and the table name, and the `PQexecParams` call on it. -/
def tableQuery (ds : DataSource) (tableName : TableName) : PGresult :=
  let listContPrefix := "select * from ".toList
  let cmdBuff := listContPrefix ++ tableName
  ds.exec cmdBuff []

/-- The method `PsqlConnection::loadTable`: the new value of `tableAttr`, or
the exception thrown (in which case `tableAttr` has not been touched). -/
def loadTable (conn : PsqlConnection) (ds : DataSource) (tableName : TableName)
    (tableAttr : TableAttr) : Except Thrown TableAttr :=
  let result := tableQuery ds tableName
  match result.status with
  | .PGRES_TUPLES_OK | .PGRES_COMMAND_OK =>
    let retRows := result.ntuples
    let retFields := result.nfields
    let lbuff : Timespec := { tv_sec := ds.now.tv_sec, tv_nsec := ds.now.tv_usec * 1000 }
    let thisStat := { conn.statTempl with
      st_atim := lbuff, st_mtim := lbuff, st_ctim := lbuff }
    let tdata := loadRows result retRows retFields tableAttr.data
    .ok { rnum := retRows, data := tdata,
          sstat := { thisStat with st_size := (tdata.length : Int) } }
  | st => .error (queryError ds st)

/-- The loop `for(auto &i : db) loadTable(i.first, i.second);`: the map when
the loop ends and the exception that ended it early, if any. -/
def loadAll (conn : PsqlConnection) (ds : DataSource) :
    TableList → TableList × Option Thrown
  | [] => ([], none)
  | (k, a) :: rest =>
    match loadTable conn ds k a with
    | .error e => ((k, a) :: rest, some e)
    | .ok a1 => ((k, a1) :: (loadAll conn ds rest).1, (loadAll conn ds rest).2)

/-- The text of the query of `loadDbByOwner`. -/
def listTables : Str := "select tablename from pg_tables where tableowner = $1".toList

/-- The method `PsqlConnection::loadDbByOwner`: the map it leaves behind and
the exception it throws, if any. -/
def loadDbByOwner (conn : PsqlConnection) (ds : DataSource) (db : TableList)
    (owner : Str) : TableList × Option Thrown :=
  match ds.safeSizeT owner.length with
  | none => (db, some (.byValue (DbConnExc.ofString "Owner's name too long.".toList)))
  | some _ =>
    if owner.length = 0 then
      (db, some (.byValue (DbConnExc.ofString "Owner's name param is empty.".toList)))
    else
      let result := ds.exec listTables [owner]
      match result.status with
      | .PGRES_TUPLES_OK | .PGRES_COMMAND_OK =>
        let retRows := result.ntuples
        let db1 := (List.range retRows).foldl
          (fun d r => TableList.index (result.getvalue r 0) d) db
        loadAll conn ds db1
      | st => (db, some (queryError ds st))

/-- The `while(getline(ifcfg, tableName))` loop of `loadDbByList` over the
lines still to be read. -/
def loadLines (conn : PsqlConnection) (ds : DataSource) :
    List Str → TableList → TableList × Option Thrown
  | [], db => (db, none)
  | tableName :: rest, db =>
    let db1 :=
      match TableList.find tableName db with
      | some a => TableList.set tableName { a with data := [] } db
      | none => TableList.index tableName db
    let db2 := TableList.index tableName db1
    match loadTable conn ds tableName (TableList.ref tableName db2) with
    | .error e => (db2, some e)
    | .ok a1 => loadLines conn ds rest (TableList.set tableName a1 db2)

/-- The method `PsqlConnection::loadDbByList`: the map it leaves behind and
the exception it throws, if any. -/
def loadDbByList (conn : PsqlConnection) (ds : DataSource) (db : TableList)
    (cfile : Str) : TableList × Option Thrown :=
  if cfile.length = 0 then
    (db, some (.byValue (DbConnExc.ofString "Config file's name param is empty.".toList)))
  else
    match ds.statSize cfile with
    | none =>
      (db, some (.byValue (DbConnExc.ofString ("Invalid config file".toList ++ ds.strerror))))
    | some st_size =>
      if st_size = 0 then
        (db, some (.byValue (DbConnExc.ofString "Config file is empty".toList)))
      else
        match loadAll conn ds db with
        | (db1, some e) => (db1, some e)
        | (db1, none) => loadLines conn ds (ds.getlines cfile) db1

/-- The connection string `connect` builds from its five arguments. -/
def connectionStringOf (dbname user hostAddr port pwd : Str) : Str :=
  "dbname=".toList ++ dbname ++ " user=".toList ++ user ++
    " password=".toList ++ pwd ++ " hostaddr=".toList ++ hostAddr ++
    " port=".toList ++ port

/-- The method `PsqlConnection::connect` with five arguments. -/
def connect (conn : PsqlConnection) (ds : DataSource)
    (dbname user hostAddr port pwd : Str) : PsqlConnection × Option Thrown :=
  let connectionString := connectionStringOf dbname user hostAddr port pwd
  let conn1 := { conn with connectionString := connectionString }
  if ds.connectionBad connectionString then
    (conn1, some (.byValue (DbConnExc.ofString "Connection Error".toList)))
  else (conn1, none)

/-- Whether the query for `tableName` ends in one of the two statuses
`loadTable` accepts. -/
def queryOk (ds : DataSource) (tableName : TableName) : Prop :=
  (tableQuery ds tableName).status = .PGRES_TUPLES_OK ∨
    (tableQuery ds tableName).status = .PGRES_COMMAND_OK

instance (ds : DataSource) (tableName : TableName) : Decidable (queryOk ds tableName) :=
  inferInstanceAs (Decidable (_ ∨ _))

/-- The entry `loadTable` leaves for `tableName` when the content it starts
from is `tdata` and the query is accepted. -/
def loadedEntry (conn : PsqlConnection) (ds : DataSource) (tableName : TableName)
    (tdata : TableData) : TableAttr :=
  { rnum := (tableQuery ds tableName).ntuples,
    data := loadRows (tableQuery ds tableName) (tableQuery ds tableName).ntuples
      (tableQuery ds tableName).nfields tdata,
    sstat := { conn.statTempl with
      st_atim := ⟨ds.now.tv_sec, ds.now.tv_usec * 1000⟩,
      st_mtim := ⟨ds.now.tv_sec, ds.now.tv_usec * 1000⟩,
      st_ctim := ⟨ds.now.tv_sec, ds.now.tv_usec * 1000⟩,
      st_size := ((loadRows (tableQuery ds tableName) (tableQuery ds tableName).ntuples
        (tableQuery ds tableName).nfields tdata).length : Int) } }

/-- The serialization of the rows the data source returns for `tableName`:
what `loadTable` appends to the content. -/
def freshContent (ds : DataSource) (tableName : TableName) : TableData :=
  loadRows (tableQuery ds tableName) (tableQuery ds tableName).ntuples
    (tableQuery ds tableName).nfields []

/-- The table names the owner query of `loadDbByOwner` returns, in row
order. -/
def ownerTables (ds : DataSource) (owner : Str) : List TableName :=
  (List.range (ds.exec listTables [owner]).ntuples).map
    (fun r => (ds.exec listTables [owner]).getvalue r 0)

/-- Whether the recorded size of an entry is the length of its content. -/
def TableAttr.Sized (a : TableAttr) : Prop :=
  a.sstat.st_size = (a.data.length : Int)

instance (a : TableAttr) : Decidable a.Sized :=
  inferInstanceAs (Decidable (a.sstat.st_size = (a.data.length : Int)))

/-- The constant `S_IFMT` of `sys/stat.h`: the file-type bits of a mode. -/
def S_IFMT : Nat := 0o170000

/-- The rows of a query result as lists of field texts: row `r` holds
`PQgetvalue(result, r, f)` for `f = 0 .. PQnfields - 1`. -/
def PGresult.rows (result : PGresult) : List (List Str) :=
  (List.range result.ntuples).map
    (fun r => (List.range result.nfields).map (result.getvalue r))

/-- The serialization of one row in the words of the specification: every
field text followed by `;`, then a newline. -/
def serializeRow : List Str → TableData
  | [] => ['\n']
  | field :: fields => field ++ ';' :: serializeRow fields

/-- The serialization of a table in the words of the specification: the
serialized rows one after the other, in row order. -/
def serializeRows : List (List Str) → TableData
  | [] => []
  | row :: rows => serializeRow row ++ serializeRows rows

end dbfsutils

namespace dbfs

open dbfsutils

abbrev Filesystem := TableList

/-- The constant `ROOT_DIR`. -/
def ROOT_DIR : Str := "/".toList

/-- The constant `PATH_SEPARATOR`. -/
def PATH_SEPARATOR : Str := "/".toList

/-- The constant `ENOENT` of `errno.h`. -/
def ENOENT : Int := 2

/-- The constant `EIO` of `errno.h`. -/
def EIO : Int := 5

/-- The constant `INT_MAX` of `limits.h`. -/
def INT_MAX : Nat := 2 ^ 31 - 1

/-- The member `std::string::find_last_of(chars)`: the last position holding
one of `chars`; `none` stands for `npos`. -/
def find_last_of (chars : Str) : Str → Option Nat
  | [] => none
  | c :: cs =>
    match find_last_of chars cs with
    | some i => some (i + 1)
    | none => if c ∈ chars then some 0 else none

/-- The member `std::string::erase(pos, n)`; `none` when it throws
`std::out_of_range`. -/
def erase (s : Str) (pos n : Nat) : Option Str :=
  if pos > s.length then none else some (s.take pos ++ s.drop (pos + n))

/-- The function `Dbfs::extractIds`: its return value and the final values
of the output parameters `path` and `file`. -/
def extractIds (buff : Str) : Bool × Str × Str :=
  let path := buff
  let file := buff
  match find_last_of PATH_SEPARATOR path with
  | some lastSep =>
    if lastSep ≠ 0 then
      match erase path lastSep (path.length - 1) with
      | none => (true, path, file)
      | some path1 =>
        match erase file 0 (lastSep + 1) with
        | none => (true, path1, file)
        | some file1 => (false, path1, file1)
    else
      match erase file 0 1 with
      | none => (true, ROOT_DIR, file)
      | some file1 => (false, ROOT_DIR, file1)
  | none => (false, path, file)

/-- How a call of a callback ends. -/
inductive Outcome (α : Type) where
  /-- The call never returns: `while(refr) wait(lock)` with `refr` true. -/
  | blocks
  /-- The call runs into undefined behaviour (a copy outside the vector). -/
  | undefined
  /-- The call returns. -/
  | returns (a : α)

/-- The static data members of `Dbfs` the callbacks share. -/
structure Statics where
  refreshing : Bool
  running : Nat
  fsdb : Filesystem

/-- The statement `running.store(running.load() + 1)`. -/
def Statics.enter (g : Statics) : Statics :=
  { g with running := (g.running + 1) % 2 ^ 64 }

/-- The statement `running.store(running.load() - 1)`. -/
def Statics.leave (g : Statics) : Statics :=
  { g with running := (g.running + (2 ^ 64 - 1)) % 2 ^ 64 }

/-- The callback `Dbfs::getattrCb`: the statics afterwards, the return value
and the final `*stbuf`. -/
def getattrCb (g : Statics) (path : Str) : Outcome (Statics × Int × Stat) :=
  if g.refreshing then .blocks
  else
    let g1 := g.enter
    let stbuf := Stat.zero
    let r : Int × Stat :=
      if path = ROOT_DIR then
        (0, { stbuf with st_mode := S_IFDIR ||| 0o777, st_nlink := 2 })
      else
        let fileName := (extractIds path).2.2
        match TableList.find fileName g1.fsdb with
        | some file => (0, file.sstat)
        | none => (-ENOENT, stbuf)
    .returns (g1.leave, r.1, r.2)

/-- The callback `Dbfs::readdirCb`: the statics afterwards, the return value
and the names handed to `filler`, in call order. -/
def readdirCb (g : Statics) (path : Str) : Outcome (Statics × Int × List Str) :=
  if g.refreshing then .blocks
  else
    let g1 := g.enter
    let _fpath := path
    let filled := [".".toList, "..".toList] ++ g1.fsdb.map (fun eit => eit.1)
    .returns (g1.leave, 0, filled)

/-- The callback `Dbfs::openCb`. -/
def openCb (g : Statics) (_path : Str) : Outcome (Statics × Int) :=
  .returns (g, 0)

/-- The call `std::copy(tdata.data() + first, tdata.data() + last, buf)`:
the bytes written from `buf[0]` on; `none` when the source range is not a
range inside the vector. -/
def copy (tdata : TableData) (first last : Nat) : Option (List Char) :=
  if first ≤ last ∧ last ≤ tdata.length then
    some ((tdata.drop first).take (last - first))
  else none

/-- The part of `Dbfs::readCb` run on a found entry: the return value and
the bytes written to `buf`, or `none` on undefined behaviour. -/
def readFound (file : TableAttr) (size : Nat) (offset : Int) :
    Option (Int × List Char) :=
  let len : Nat := toSizeT file.sstat.st_size
  if offset < 0 then some (-ENOENT, [])
  else if len > INT_MAX then some (-ENOENT, [])
  else if toSizeT offset ≥ len then some (0, [])
  else
    let tdata := file.data
    if (toSizeT offset + size) % 2 ^ 64 > len then
      (copy tdata (toSizeT offset) len).map
        (fun bytes => (toInt ((len + 2 ^ 64 - toSizeT offset) % 2 ^ 64), bytes))
    else
      (copy tdata (toSizeT offset) (toSizeT offset + size)).map
        (fun bytes => (toInt size, bytes))

/-- The callback `Dbfs::readCb`: the statics afterwards, the return value
and the bytes written to `buf`. -/
def readCb (g : Statics) (path : Str) (size : Nat) (offset : Int) :
    Outcome (Statics × Int × List Char) :=
  if g.refreshing then .blocks
  else
    let g1 := g.enter
    let fileName := (extractIds path).2.2
    match TableList.find fileName g1.fsdb with
    | some file =>
      match readFound file size offset with
      | some r => .returns (g1.leave, r.1, r.2)
      | none => .undefined
    | none => .returns (g1.leave, 0, [])

/-- The non-static data members of a `Dbfs` object. -/
structure Dbfs where
  mountPoint : Str
  configurationFile : Str
  owner : Str
  dbName : Str
  userName : Str
  dbAddress : Str
  dbPort : Str
  dbPwd : Str
  dbconn : PsqlConnection

/-- The body of the `try` block of `Dbfs::initFileSystem`: the connection
object and the cache afterwards, and the exception that left the block. -/
def initBody (self : Dbfs) (g : Statics) (ds : DataSource)
    (dbname user address port pwd : Str) :
    PsqlConnection × Filesystem × Option Thrown :=
  let c := connect self.dbconn ds dbname user address port pwd
  match c.2 with
  | some e => (c.1, g.fsdb, some e)
  | none =>
    let r :=
      if self.owner.length ≠ 0 ∧ g.refreshing = false then
        loadDbByOwner c.1 ds g.fsdb self.owner
      else
        loadDbByList c.1 ds g.fsdb self.configurationFile
    (c.1, r.1, r.2)

/-- The method `Dbfs::initFileSystem`: the object and the statics afterwards,
and either the return value or the exception that propagates to the caller.
The handler is `catch(DbConnExc* ex)`, which takes pointers only. -/
def initFileSystem (self : Dbfs) (g : Statics) (ds : DataSource)
    (dbname user address port pwd : Str) :
    Dbfs × Statics × Except Thrown Bool :=
  let self1 := { self with
    dbName := dbname, userName := user, dbAddress := address,
    dbPort := port, dbPwd := pwd }
  let b := initBody self1 g ds dbname user address port pwd
  let self2 := { self1 with dbconn := b.1 }
  let g1 := { g with fsdb := b.2.1 }
  match b.2.2 with
  | none => (self2, g1, .ok true)
  | some (.byPointer _) => (self2, g1, .ok false)
  | some (.byValue ex) => (self2, g1, .error (.byValue ex))
  | some (.stdException what) => (self2, g1, .error (.stdException what))

/-- The last path component in the words of the specification: the text
after the final separator (the whole path when it has no separator). -/
def lastComponent (path : Str) : Str :=
  (path.reverse.takeWhile (fun c => decide (c ≠ '/'))).reverse

/-- The constructor `Dbfs::Dbfs`, given the results of `getuid()` and
`getgid()` the connection object reads. -/
def Dbfs.new (dir confFile tableOwner : Str) (uid gid : Nat) : Dbfs :=
  { mountPoint := dir, configurationFile := confFile, owner := tableOwner,
    dbName := [], userName := [], dbAddress := [], dbPort := [], dbPwd := [],
    dbconn := PsqlConnection.new uid gid }

/-- The function `genericExcPtrHdlr`: the exception that leaves it (an object
derived from `std::exception` is caught and reported, anything else is
rethrown) and the text written to `cerr`. -/
def genericExcPtrHdlr (exptr : Option Thrown) : Option Thrown × List Str :=
  match exptr with
  | none => (none, [])
  | some (.stdException what) =>
    (none, ["- Caught Unexpected Exception : ".toList ++ what])
  | some t => (some t, [])

/-- The method `Dbfs::refreshDb`. -/
def refreshDb (self : Dbfs) (g : Statics) (ds : DataSource) :
    Dbfs × Statics × Except Thrown Bool :=
  if self.dbName.length = 0 ∨ self.userName.length = 0 ∨
      self.dbAddress.length = 0 ∨ self.dbPort.length = 0 ∨
      self.dbPwd.length = 0 then
    (self, g, .ok false)
  else
    initFileSystem self g ds self.dbName self.userName self.dbAddress
      self.dbPort self.dbPwd

/-- How a run of the signal handler ends. -/
inductive HdlrOutcome where
  /-- The loop on `running` never ends: `running` is not zero and, with
  the handler running alone, nothing decrements it. -/
  | waits
  /-- An exception leaves the `noexcept(true)` handler: `std::terminate`. -/
  | terminate
  /-- The handler returns, leaving this object and these statics. -/
  | returns (self : Dbfs) (g : Statics)

/-- The handler `Dbfs::refreshHdlr` run with no operation interleaved. -/
def refreshHdlr (self : Dbfs) (g : Statics) (ds : DataSource) : HdlrOutcome :=
  let g1 := { g with refreshing := true }
  if g1.running ≠ 0 then .waits
  else
    let r := refreshDb self g1 ds
    match r.2.2 with
    | .ok _ => .returns r.1 { r.2.1 with refreshing := false }
    | .error t =>
      match (genericExcPtrHdlr (some t)).1 with
      | none => .returns r.1 r.2.1
      | some _ => .terminate

/-- The statements of `refreshHdlr` that follow the call of `refreshDb`,
given how that call ended. The call can also end in an exception of the
standard library (such as `std::bad_alloc` from a growing string or
vector), which the loaders over a `DataSource` do not raise. -/
def refreshHdlrAfter (r : Dbfs × Statics × Except Thrown Bool) : HdlrOutcome :=
  match r.2.2 with
  | .ok _ => .returns r.1 { r.2.1 with refreshing := false }
  | .error t =>
    match (genericExcPtrHdlr (some t)).1 with
    | none => .returns r.1 r.2.1
    | some _ => .terminate

/-- The variables of `main` after the `getopt` loop. -/
structure Options where
  progname : Str
  mountpoint : Str
  dbname : Str
  user : Str
  address : Str
  port : Str
  pwd : Str
  tablesOwner : Str
  cfgFile : Str
  debug : Bool
  /-- The option `-h` was given. -/
  help : Bool
  /-- The test `optind != argc`. -/
  leftover : Bool

/-- What `main` reads from outside the process. -/
structure MainEnv where
  ds : DataSource
  uid : Nat
  gid : Nat
  /-- Whether `sigaction(SIGUSR2, ...)` returns `-1`. -/
  sigactionFails : Bool
  /-- The value `fuse_main` returns. -/
  fuseMain : Int

/-- How the process ends: the exit status and the lines `main` and
`genericExcPtrHdlr` wrote to `cerr` (the usage text of `paramError` is one
line here). -/
inductive ProcessEnd where
  | exits (code : Int) (cerr : List Str)
  | terminate (cerr : List Str)
deriving DecidableEq, Repr

/-- The constant `EXIT_FAILURE` of `stdlib.h`. -/
def EXIT_FAILURE : Int := 1

/-- The constant `DBFS_CONF_FILE` of `main`. -/
def DBFS_CONF_FILE : Str := "./dbfs.config".toList

/-- The usage text `paramError` prints before `exit(1)`. -/
def usage : Str := "dbfs - Mounting a db like a file system. GBonacini - (C) 2017   ".toList

/-- The function `main` from the end of the `getopt` loop on. -/
def main (env : MainEnv) (o : Options) : ProcessEnd :=
  if o.help = true then .exits 1 [usage]
  else if o.mountpoint.length = 0 ∨ o.dbname.length = 0 ∨ o.user.length = 0 ∨
      o.address.length = 0 ∨ o.leftover = true then
    .exits 1 ["Invalid parameter(s).".toList, usage]
  else
    let fuseErr : Int := 0
    let cerr1 :=
      if o.tablesOwner.length ≠ 0 then
        ["'Owner' parameter specified: the config file will be ignored.".toList]
      else []
    let cfgFile :=
      if o.tablesOwner.length ≠ 0 then o.cfgFile
      else if o.cfgFile.length = 0 then DBFS_CONF_FILE else o.cfgFile
    let parVals := [o.progname, "-o".toList, "nonempty".toList, o.mountpoint]
    let cerr2 := cerr1 ++
      (if o.debug = true then
        parVals.map (fun v => "- Fuse main param: <".toList ++ v ++ ">".toList)
      else [])
    if env.sigactionFails = true then
      .exits fuseErr (cerr2 ++ ["Dbfs cons: error setting signal handler.".toList])
    else
      let dbfs := Dbfs.new o.mountpoint cfgFile o.tablesOwner env.uid env.gid
      let statics : Statics := { refreshing := false, running := 0, fsdb := [] }
      match (initFileSystem dbfs statics env.ds o.dbname o.user o.address
          o.port o.pwd).2.2 with
      | .ok true => .exits env.fuseMain cerr2
      | .ok false =>
        .exits fuseErr (cerr2 ++
          ["Init Error: File System.".toList, "Init Error: File System.".toList])
      | .error (.byValue ex) => .exits fuseErr (cerr2 ++ [ex.errorMessage])
      | .error t =>
        match (genericExcPtrHdlr (some t)).1 with
        | some _ => .terminate (cerr2 ++ (genericExcPtrHdlr (some t)).2)
        | none => .exits EXIT_FAILURE (cerr2 ++ (genericExcPtrHdlr (some t)).2)

/-! ### The gate and the refresh handler, statement by statement

One filesystem operation and the signal handler as two threads whose
atomic loads and stores, mutex operations and waits interleave one at a
time. -/

namespace Sync

/-- The two threads. -/
inductive Who where
  | op
  | hdlr
deriving DecidableEq, Repr

/-- Where the operation stands: the statement it runs next, or the section
it is inside. -/
inductive OpPc where
  /-- Before `bool refr {refreshing.load()}`. -/
  | readFlag
  /-- Before `unique_lock<mutex> lock(mtxRefresh)`. -/
  | lock
  /-- At the test of `while(refr)`, holding the mutex. -/
  | gate
  /-- Inside `cndRefresh.wait(lock)`, the mutex released. -/
  | waiting
  /-- Past the gate, before `running.load()` of the increment. -/
  | loadRunning
  /-- Before `running.store(... + 1)`. -/
  | storeRunning
  /-- Inside the body that reads `fsdb`. -/
  | body
  /-- Before `running.load()` of the decrement. -/
  | loadLeave
  /-- Before `running.store(... - 1)`. -/
  | storeLeave
  /-- Returned. -/
  | done
deriving DecidableEq, Repr

/-- The locals of the operation. -/
structure OpThread where
  pc : OpPc
  refr : Bool
  loaded : Nat
deriving DecidableEq, Repr

/-- Where the handler stands. -/
inductive HdlrPc where
  /-- Before `refreshing.store(true)`. -/
  | setFlag
  /-- At `s = running.load()` of the waiting loop. -/
  | poll
  /-- Inside `refreshDb()`: `fsdb` is being rewritten. -/
  | reloading
  /-- Before `unique_lock<mutex> lock(mtxRefresh); cndRefresh.notify_all()`. -/
  | notify
  /-- Before `refreshing.store(false)` and the end of the `try` block. -/
  | clearFlag
  /-- Returned. -/
  | done
deriving DecidableEq, Repr

/-- The shared variables and the two threads. -/
structure Sys where
  refreshing : Bool
  running : Nat
  /-- The holder of `mtxRefresh`. -/
  mutex : Option Who
  op : OpThread
  hdlr : HdlrPc
deriving DecidableEq, Repr

/-- One step of the operation; `none` when it cannot move (the mutex is
taken, or it has returned). `lockInTry` tells whether the lock object lives
in the `try` block (`readdirCb`, `readCb`) or in the whole function
(`getattrCb`). -/
def stepOp (lockInTry : Bool) (s : Sys) : Option Sys :=
  match s.op.pc with
  | .readFlag => some { s with op := { s.op with refr := s.refreshing, pc := .lock } }
  | .lock =>
    match s.mutex with
    | none => some { s with mutex := some .op, op := { s.op with pc := .gate } }
    | some _ => none
  | .gate =>
    if s.op.refr = true then
      some { s with mutex := none, op := { s.op with pc := .waiting } }
    else some { s with op := { s.op with pc := .loadRunning } }
  | .waiting =>
    match s.mutex with
    | none => some { s with mutex := some .op, op := { s.op with pc := .gate } }
    | some _ => none
  | .loadRunning =>
    some { s with op := { s.op with loaded := s.running, pc := .storeRunning } }
  | .storeRunning =>
    some { s with running := (s.op.loaded + 1) % 2 ^ 64, op := { s.op with pc := .body } }
  | .body =>
    some { s with
      mutex := if lockInTry = true then none else s.mutex,
      op := { s.op with pc := .loadLeave } }
  | .loadLeave =>
    some { s with op := { s.op with loaded := s.running, pc := .storeLeave } }
  | .storeLeave =>
    some { s with
      running := (s.op.loaded + (2 ^ 64 - 1)) % 2 ^ 64,
      mutex := if lockInTry = true then s.mutex else none,
      op := { s.op with pc := .done } }
  | .done => none

/-- One step of the handler; `none` when it cannot move. -/
def stepHdlr (s : Sys) : Option Sys :=
  match s.hdlr with
  | .setFlag => some { s with refreshing := true, hdlr := .poll }
  | .poll => if s.running ≠ 0 then some s else some { s with hdlr := .reloading }
  | .reloading => some { s with hdlr := .notify }
  | .notify =>
    match s.mutex with
    | none => some { s with mutex := some .hdlr, hdlr := .clearFlag }
    | some _ => none
  | .clearFlag => some { s with refreshing := false, mutex := none, hdlr := .done }
  | .done => none

/-- One step of the named thread. -/
def step (lockInTry : Bool) (w : Who) (s : Sys) : Option Sys :=
  match w with
  | .op => stepOp lockInTry s
  | .hdlr => stepHdlr s

/-- The state after the threads have moved in the given order; `none` when
a thread named in the order cannot move at its turn. -/
def run (lockInTry : Bool) : List Who → Sys → Option Sys
  | [], s => some s
  | w :: ws, s =>
    match step lockInTry w s with
    | some s1 => run lockInTry ws s1
    | none => none

/-- The state at the start: nothing refreshing, nothing running, both
threads about to begin. -/
def init : Sys :=
  { refreshing := false, running := 0, mutex := none,
    op := { pc := .readFlag, refr := false, loaded := 0 }, hdlr := .setFlag }

/-- Whether the operation is between passing the gate and its decrement of
`running`. -/
def inFlight (pc : OpPc) : Bool :=
  match pc with
  | .loadRunning | .storeRunning | .body | .loadLeave | .storeLeave => true
  | _ => false

/-- Whether the operation is still in front of the gate. -/
def beforeGate (pc : OpPc) : Bool :=
  match pc with
  | .lock | .gate | .waiting => true
  | _ => false

end Sync

/-! ### Concrete states used to exercise the model -/

namespace Example

/-- A result of two rows `(1, alice)`, `(2, bob)`. -/
def usersResult : PGresult :=
  { status := .PGRES_TUPLES_OK, ntuples := 2, nfields := 2,
    getvalue := fun r f =>
      if r = 0 then (if f = 0 then "1".toList else "alice".toList)
      else (if f = 0 then "2".toList else "bob".toList) }

/-- A result of one row `(7, pen)`. -/
def ordersResult : PGresult :=
  { status := .PGRES_TUPLES_OK, ntuples := 1, nfields := 2,
    getvalue := fun _ f => if f = 0 then "7".toList else "pen".toList }

/-- The answer of the owner query: the single table `users`. -/
def ownerResult : PGresult :=
  { status := .PGRES_TUPLES_OK, ntuples := 1, nfields := 1,
    getvalue := fun _ _ => "users".toList }

/-- The answer to a query the server rejects. -/
def failedResult : PGresult :=
  { status := .PGRES_FATAL_ERROR, ntuples := 0, nfields := 0,
    getvalue := fun _ _ => [] }

/-- A server holding the tables `users` and `orders`, and two configuration
files: `dbfs.config` lists `users`, `two.config` lists `users` and `zombie`
(a table the server does not have). -/
def ds : DataSource :=
  { connectionBad := fun _ => false,
    exec := fun cmd _ =>
      if cmd = "select * from users".toList then usersResult
      else if cmd = "select * from orders".toList then ordersResult
      else if cmd = listTables then ownerResult
      else failedResult,
    errorMessage := "relation does not exist".toList,
    now := { tv_sec := 1700000000, tv_usec := 250 },
    statSize := fun _ => some 6,
    strerror := [],
    getlines := fun f =>
      if f = "two.config".toList then ["users".toList, "zombie".toList]
      else ["users".toList],
    safeSizeT := fun n => some n }

/-- A connection object of user and group 1000. -/
def conn : PsqlConnection := PsqlConnection.new 1000 1000

/-- The entry of `users` as a first load leaves it. -/
def users : TableAttr := loadedEntry conn ds "users".toList []

/-- The entry of `orders` as a first load leaves it. -/
def orders : TableAttr := loadedEntry conn ds "orders".toList []

/-- The statics with the single table `users` cached and nothing running. -/
def statics : Statics :=
  { refreshing := false, running := 0, fsdb := [("users".toList, users)] }

/-- The statics with the tables `orders` and `users` cached. -/
def staticsTwo : Statics :=
  { refreshing := false, running := 0,
    fsdb := [("orders".toList, orders), ("users".toList, users)] }

/-- The same server with the connection refused. -/
def dsDown : DataSource := { ds with connectionBad := fun _ => true }

/-- A `Dbfs` object started without an owner, reading `two.config`. -/
def dbfsByList : Dbfs :=
  { mountPoint := "/mnt".toList, configurationFile := "two.config".toList,
    owner := [], dbName := "db".toList, userName := "u".toList,
    dbAddress := "127.0.0.1".toList, dbPort := "5432".toList, dbPwd := "p".toList,
    dbconn := conn }

/-- A `Dbfs` object started with the owner `bob` and no `-f` option, as
`main` builds it, after its first `initFileSystem`. -/
def dbfsByOwner : Dbfs :=
  { mountPoint := "/mnt".toList, configurationFile := [],
    owner := "bob".toList, dbName := "db".toList, userName := "u".toList,
    dbAddress := "127.0.0.1".toList, dbPort := "5432".toList, dbPwd := "p".toList,
    dbconn := conn }

/-- A result of one row with the single field `a;b`. -/
def joinedResult : PGresult :=
  { status := .PGRES_TUPLES_OK, ntuples := 1, nfields := 1,
    getvalue := fun _ _ => "a;b".toList }

/-- A result of one row with the two fields `a` and `b`. -/
def splitResult : PGresult :=
  { status := .PGRES_TUPLES_OK, ntuples := 1, nfields := 2,
    getvalue := fun _ f => if f = 0 then "a".toList else "b".toList }

/-- A server holding the tables `joined` and `split`. -/
def dsPair : DataSource :=
  { ds with
    exec := fun cmd _ =>
      if cmd = "select * from joined".toList then joinedResult
      else if cmd = "select * from split".toList then splitResult
      else failedResult }

/-- The options `-m /mnt -d db -u u -a 127.0.0.1 -p 5432 -P p`. -/
def options : Options :=
  { progname := "dbfs".toList, mountpoint := "/mnt".toList, dbname := "db".toList,
    user := "u".toList, address := "127.0.0.1".toList, port := "5432".toList,
    pwd := "p".toList, tablesOwner := [], cfgFile := [], debug := false,
    help := false, leftover := false }

/-- A start with the connection refused. -/
def mainEnvDown : MainEnv :=
  { ds := dsDown, uid := 1000, gid := 1000, sigactionFails := false, fuseMain := 0 }

/-- A start where the server rejects the query for the listed table
`zombie` (the default file `./dbfs.config` lists `users`, so the options
name `two.config`). -/
def mainEnvUp : MainEnv :=
  { ds := ds, uid := 1000, gid := 1000, sigactionFails := false, fuseMain := 0 }

/-- A `Dbfs` object started with the owner `bob` and `-f dbfs.config`, after
its first `initFileSystem`. -/
def dbfsOwnerAndFile : Dbfs :=
  { dbfsByOwner with configurationFile := "dbfs.config".toList }

/-- The state of the two threads after the whole refresh has run while the
operation, which read `refreshing` as true, waits. -/
def stalled : Sync.Sys :=
  { refreshing := false, running := 0, mutex := none,
    op := { pc := .waiting, refr := true, loaded := 0 }, hdlr := .done }

/-- The statics with a cache that holds, next to `users`, an entry under
the empty name and one under a name with a separator. -/
def staticsOddNames : Statics :=
  { refreshing := false, running := 0,
    fsdb := [([], orders), ("a/b".toList, orders), ("users".toList, users)] }

/-- The answer to an empty query string. -/
def emptyQueryResult : PGresult :=
  { status := .PGRES_EMPTY_QUERY, ntuples := 0, nfields := 0,
    getvalue := fun _ _ => [] }

/-- A server that answers every command as an empty query. -/
def dsEmptyQuery : DataSource := { ds with exec := fun _ _ => emptyQueryResult }

/-- A start on the server `ds` where `fuse_main` returns 3. -/
def mainEnvMounted : MainEnv :=
  { ds := ds, uid := 1000, gid := 1000, sigactionFails := false, fuseMain := 3 }

end Example

end dbfs

/-! ## Path resolution -/

namespace dbfs
open dbfsutils

theorem find_last_of_none_of_not_mem (chars : Str) :
    ∀ s : Str, (∀ x ∈ s, x ∉ chars) → find_last_of chars s = none
  | [], _ => rfl
  | c :: cs, h => by
    have hc : c ∉ chars := h c (List.mem_cons_self _ _)
    have ih := find_last_of_none_of_not_mem chars cs
      (fun x hx => h x (List.mem_cons_of_mem _ hx))
    simp [find_last_of, ih, hc]

theorem not_mem_of_find_last_of_none (chars : Str) :
    ∀ s : Str, find_last_of chars s = none → ∀ x ∈ s, x ∉ chars
  | [], _, x, hx => by simp at hx
  | c :: cs, h, x, hx => by
    unfold find_last_of at h
    cases hrec : find_last_of chars cs with
    | some j => rw [hrec] at h; simp at h
    | none =>
      rw [hrec] at h
      by_cases hc : c ∈ chars
      · simp [hc] at h
      · rcases List.mem_cons.mp hx with rfl | hx
        · exact hc
        · exact not_mem_of_find_last_of_none chars cs hrec x hx

theorem find_last_of_append_sep (chars : Str) (c : Char) (n : Str)
    (hc : c ∈ chars) (hn : ∀ x ∈ n, x ∉ chars) :
    ∀ d : Str, find_last_of chars (d ++ c :: n) = some d.length
  | [] => by
    simp [find_last_of, find_last_of_none_of_not_mem chars n hn, hc]
  | a :: d => by
    have ih := find_last_of_append_sep chars c n hc hn d
    simp [find_last_of, ih]

theorem find_last_of_some (chars : Str) :
    ∀ (s : Str) (i : Nat), find_last_of chars s = some i →
      ∃ d c n, s = d ++ c :: n ∧ d.length = i ∧ c ∈ chars ∧ ∀ x ∈ n, x ∉ chars
  | [], i, h => by simp [find_last_of] at h
  | a :: s, i, h => by
    unfold find_last_of at h
    cases hrec : find_last_of chars s with
    | some j =>
      rw [hrec] at h
      obtain ⟨d, c, n, hs, hd, hc, hn⟩ := find_last_of_some chars s j hrec
      refine ⟨a :: d, c, n, by simp [hs], ?_, hc, hn⟩
      simp at h
      simp [hd, h]
    | none =>
      rw [hrec] at h
      by_cases ha : a ∈ chars
      · simp [ha] at h
        exact ⟨[], a, s, rfl, by simp [h], ha,
          not_mem_of_find_last_of_none chars s hrec⟩
      · simp [ha] at h

theorem mem_PATH_SEPARATOR (c : Char) : c ∈ PATH_SEPARATOR ↔ c = '/' := by
  simp [PATH_SEPARATOR]

theorem extractIds_sep (d n : Str) (hn : '/' ∉ n) :
    extractIds (d ++ '/' :: n) = (false, if d = [] then ROOT_DIR else d, n) := by
  have hn' : ∀ x ∈ n, x ∉ PATH_SEPARATOR := by
    intro x hx hxs
    rw [mem_PATH_SEPARATOR] at hxs
    exact hn (hxs ▸ hx)
  have hfind := find_last_of_append_sep PATH_SEPARATOR '/' n
    ((mem_PATH_SEPARATOR _).mpr rfl) hn' d
  unfold extractIds
  simp only [hfind]
  cases d with
  | nil => simp [erase]
  | cons a d =>
    simp [erase]
    omega

theorem extractIds_no_sep (p : Str) (hp : '/' ∉ p) :
    extractIds p = (false, p, p) := by
  have hp' : ∀ x ∈ p, x ∉ PATH_SEPARATOR := by
    intro x hx hxs
    rw [mem_PATH_SEPARATOR] at hxs
    exact hp (hxs ▸ hx)
  unfold extractIds
  simp only [find_last_of_none_of_not_mem PATH_SEPARATOR p hp']

theorem takeWhile_append_stop (q : Char → Bool) (c : Char) (hc : q c = false) :
    ∀ (xs ys : List Char), (∀ x ∈ xs, q x = true) →
      (xs ++ c :: ys).takeWhile q = xs
  | [], ys, _ => by simp [List.takeWhile, hc]
  | x :: xs, ys, h => by
    have hx : q x = true := h x (List.mem_cons_self _ _)
    have ih := takeWhile_append_stop q c hc xs ys
      (fun y hy => h y (List.mem_cons_of_mem _ hy))
    simp [List.takeWhile, hx, ih]

theorem lastComponent_sep (d n : Str) (hn : '/' ∉ n) :
    lastComponent (d ++ '/' :: n) = n := by
  unfold lastComponent
  have hrev : (d ++ '/' :: n).reverse = n.reverse ++ '/' :: d.reverse := by simp
  rw [hrev, takeWhile_append_stop _ '/' (by simp)]
  · simp
  · intro x hx
    have hx' : x ∈ n := List.mem_reverse.mp hx
    have : x ≠ '/' := fun h => hn (h ▸ hx')
    simpa using this

theorem lastComponent_no_sep (p : Str) (hp : '/' ∉ p) : lastComponent p = p := by
  unfold lastComponent
  have : p.reverse.takeWhile (fun c => decide (c ≠ '/')) = p.reverse := by
    rw [List.takeWhile_eq_self_iff]
    intro x hx
    have hx' : x ∈ p := List.mem_reverse.mp hx
    have : x ≠ '/' := fun h => hp (h ▸ hx')
    simpa using this
  rw [this, List.reverse_reverse]

/-- Every path splits at its final separator, or has none. -/
theorem path_cases (p : Str) :
    '/' ∉ p ∨ ∃ d n, p = d ++ '/' :: n ∧ '/' ∉ n := by
  cases h : find_last_of PATH_SEPARATOR p with
  | none =>
    left
    intro hmem
    exact not_mem_of_find_last_of_none PATH_SEPARATOR p h '/' hmem
      ((mem_PATH_SEPARATOR _).mpr rfl)
  | some i =>
    right
    obtain ⟨d, c, n, hs, _, hc, hn⟩ := find_last_of_some PATH_SEPARATOR p i h
    rw [mem_PATH_SEPARATOR] at hc
    subst hc
    exact ⟨d, n, hs, fun hmem => hn '/' hmem ((mem_PATH_SEPARATOR _).mpr rfl)⟩

theorem extractIds_file (p : Str) :
    (extractIds p).1 = false ∧ (extractIds p).2.2 = lastComponent p := by
  rcases path_cases p with hp | ⟨d, n, rfl, hn⟩
  · rw [extractIds_no_sep p hp, lastComponent_no_sep p hp]
    exact ⟨rfl, rfl⟩
  · rw [extractIds_sep d n hn, lastComponent_sep d n hn]
    exact ⟨rfl, rfl⟩

end dbfs

/-! ## The key order and the map operations -/

namespace dbfsutils

theorem strLt_irrefl : ∀ a : Str, strLt a a = false
  | [] => rfl
  | c :: cs => by
    unfold strLt
    simp only [lt_irrefl, if_false]
    exact strLt_irrefl cs

theorem strLt_trans : ∀ a b c : Str, strLt a b = true → strLt b c = true →
    strLt a c = true
  | [], [], _, h, _ => by simp [strLt] at h
  | [], _ :: _, [], _, h => by simp [strLt] at h
  | [], _ :: _, _ :: _, _, _ => by simp [strLt]
  | _ :: _, [], _, h, _ => by simp [strLt] at h
  | _ :: _, _ :: _, [], _, h => by simp [strLt] at h
  | x :: xs, y :: ys, z :: zs, h1, h2 => by
    unfold strLt at h1 h2 ⊢
    by_cases hxy : x < y
    · by_cases hyz : y < z
      · rw [if_pos (lt_trans hxy hyz)]
      · rw [if_neg hyz] at h2
        by_cases hzy : z < y
        · rw [if_pos hzy] at h2; cases h2
        · have : y = z := le_antisymm (not_lt.mp hzy) (not_lt.mp hyz)
          rw [← this, if_pos hxy]
    · rw [if_neg hxy] at h1
      by_cases hyx : y < x
      · rw [if_pos hyx] at h1; cases h1
      · rw [if_neg hyx] at h1
        have hxy' : x = y := le_antisymm (not_lt.mp hyx) (not_lt.mp hxy)
        rw [hxy']
        by_cases hyz : y < z
        · rw [if_pos hyz]
        · rw [if_neg hyz] at h2 ⊢
          by_cases hzy : z < y
          · rw [if_pos hzy] at h2; cases h2
          · rw [if_neg hzy] at h2 ⊢
            exact strLt_trans xs ys zs h1 h2

theorem strLt_total : ∀ a b : Str, a ≠ b → strLt a b = true ∨ strLt b a = true
  | [], [], h => absurd rfl h
  | [], _ :: _, _ => Or.inl rfl
  | _ :: _, [], _ => Or.inr rfl
  | x :: xs, y :: ys, h => by
    unfold strLt
    by_cases hxy : x < y
    · left; rw [if_pos hxy]
    · by_cases hyx : y < x
      · right; rw [if_pos hyx]
      · have hxy' : x = y := le_antisymm (not_lt.mp hyx) (not_lt.mp hxy)
        have hne : xs ≠ ys := fun e => h (by rw [hxy', e])
        rw [if_neg hxy, if_neg hyx, if_neg hyx, if_neg hxy]
        exact strLt_total xs ys hne

theorem strLt_ne (a b : Str) (h : strLt a b = true) : a ≠ b := by
  intro e
  rw [e, strLt_irrefl] at h
  cases h

namespace TableList

theorem keys_nodup_of_ordered (db : TableList) (h : Ordered db) : db.keys.Nodup := by
  unfold Ordered at h
  unfold keys
  rw [List.Nodup, List.pairwise_map]
  exact h.imp (fun hab => strLt_ne _ _ hab)

theorem keys_pairwise_of_ordered (db : TableList) (h : Ordered db) :
    db.keys.Pairwise (fun a b => strLt a b = true) := by
  unfold keys
  rw [List.pairwise_map]
  exact h

end TableList

end dbfsutils

namespace dbfsutils
namespace TableList

theorem find_cons (k k1 : TableName) (v1 : TableAttr) (rest : TableList) :
    find k ((k1, v1) :: rest) = if k1 = k then some v1 else find k rest := rfl

theorem set_cons (k k1 : TableName) (v v1 : TableAttr) (rest : TableList) :
    set k v ((k1, v1) :: rest) =
      if k1 = k then (k1, v) :: rest
      else if strLt k k1 = true then (k, v) :: (k1, v1) :: rest
      else (k1, v1) :: set k v rest := rfl

theorem set_nil (k : TableName) (v : TableAttr) : set k v [] = [(k, v)] := rfl

theorem find_eq_none_iff (k : TableName) :
    ∀ db : TableList, find k db = none ↔ k ∉ keys db
  | [] => by simp [find, keys]
  | (k1, v) :: rest => by
    have ih := find_eq_none_iff k rest
    unfold find
    by_cases h : k1 = k
    · constructor
      · intro hh
        rw [if_pos h] at hh
        cases hh
      · intro hh
        refine absurd ?_ hh
        show k ∈ k1 :: rest.map Prod.fst
        rw [h]
        exact List.mem_cons_self _ _
    · have h' : ¬ k = k1 := fun e => h e.symm
      simp only [if_neg h, ih, keys, List.map_cons, List.mem_cons, not_or]
      exact ⟨fun hr => ⟨h', hr⟩, fun hr => hr.2⟩

theorem mem_of_find_eq_some (k : TableName) (v : TableAttr) :
    ∀ db : TableList, find k db = some v → (k, v) ∈ db
  | [], h => by simp [find] at h
  | (k1, v1) :: rest, h => by
    unfold find at h
    by_cases hk : k1 = k
    · rw [if_pos hk] at h
      have hv : v1 = v := Option.some.inj h
      rw [hk, hv]
      exact List.mem_cons_self _ _
    · rw [if_neg hk] at h
      exact List.mem_cons_of_mem _ (mem_of_find_eq_some k v rest h)

theorem find_set_self (k : TableName) (v : TableAttr) :
    ∀ db : TableList, find k (set k v db) = some v
  | [] => by rw [set_nil, find_cons, if_pos rfl]
  | (k1, v1) :: rest => by
    rw [set_cons]
    by_cases h : k1 = k
    · rw [if_pos h, find_cons, if_pos h]
    · rw [if_neg h]
      by_cases hl : strLt k k1 = true
      · rw [if_pos hl, find_cons, if_pos rfl]
      · rw [if_neg hl, find_cons, if_neg h]
        exact find_set_self k v rest

theorem find_set_ne (k k2 : TableName) (v : TableAttr) (hne : k2 ≠ k) :
    ∀ db : TableList, find k2 (set k v db) = find k2 db
  | [] => by
    rw [set_nil, find_cons, if_neg (fun e => hne e.symm)]
  | (k1, v1) :: rest => by
    rw [set_cons]
    by_cases h : k1 = k
    · have h2 : ¬ k1 = k2 := fun e => hne (e ▸ h)
      rw [if_pos h, find_cons, find_cons, if_neg h2, if_neg h2]
    · rw [if_neg h]
      by_cases hl : strLt k k1 = true
      · rw [if_pos hl, find_cons, if_neg (fun e => hne e.symm)]
      · rw [if_neg hl, find_cons, find_cons, find_set_ne k k2 v hne rest]

theorem set_set (k : TableName) (v w : TableAttr) :
    ∀ db : TableList, set k v (set k w db) = set k v db
  | [] => by rw [set_nil, set_cons, if_pos rfl, set_nil]
  | (k1, v1) :: rest => by
    rw [set_cons, set_cons]
    by_cases h : k1 = k
    · rw [if_pos h, if_pos h, set_cons, if_pos h]
    · rw [if_neg h, if_neg h]
      by_cases hl : strLt k k1 = true
      · rw [if_pos hl, if_pos hl, set_cons, if_pos rfl]
      · rw [if_neg hl, if_neg hl, set_cons, if_neg h, if_neg hl, set_set k v w rest]

theorem mem_set (k : TableName) (v : TableAttr) (e : TableName × TableAttr) :
    ∀ db : TableList, e ∈ set k v db → e = (k, v) ∨ e ∈ db
  | [], h => by
    rw [set_nil] at h
    exact Or.inl (List.mem_singleton.mp h)
  | (k1, v1) :: rest, h => by
    rw [set_cons] at h
    by_cases hk : k1 = k
    · rw [if_pos hk] at h
      rcases List.mem_cons.mp h with h | h
      · left; rw [h, hk]
      · right; exact List.mem_cons_of_mem _ h
    · rw [if_neg hk] at h
      by_cases hl : strLt k k1 = true
      · rw [if_pos hl] at h
        rcases List.mem_cons.mp h with h | h
        · left; exact h
        · right; exact h
      · rw [if_neg hl] at h
        rcases List.mem_cons.mp h with h | h
        · right; rw [h]; exact List.mem_cons_self _ _
        · rcases mem_set k v e rest h with h | h
          · left; exact h
          · right; exact List.mem_cons_of_mem _ h

theorem keys_set (k : TableName) (v : TableAttr) (x : TableName) :
    ∀ db : TableList, x ∈ (set k v db).keys ↔ x = k ∨ x ∈ db.keys
  | [] => by
    rw [set_nil]
    show x ∈ [k] ↔ x = k ∨ x ∈ []
    rw [List.mem_singleton]
    exact ⟨Or.inl, fun h => h.elim id (fun h => absurd h (List.not_mem_nil _))⟩
  | (k1, v1) :: rest => by
    rw [set_cons]
    by_cases hk : k1 = k
    · rw [if_pos hk]
      show x ∈ k1 :: keys rest ↔ x = k ∨ x ∈ k1 :: keys rest
      rw [List.mem_cons, hk]
      tauto
    · rw [if_neg hk]
      by_cases hl : strLt k k1 = true
      · rw [if_pos hl]
        show x ∈ k :: keys ((k1, v1) :: rest) ↔ _
        rw [List.mem_cons]
      · rw [if_neg hl]
        show x ∈ k1 :: keys (set k v rest) ↔ x = k ∨ x ∈ k1 :: keys rest
        rw [List.mem_cons, List.mem_cons, keys_set k v x rest]
        tauto

theorem ordered_set (k : TableName) (v : TableAttr) :
    ∀ db : TableList, Ordered db → Ordered (set k v db)
  | [], _ => by
    rw [set_nil]
    exact List.pairwise_singleton _ _
  | (k1, v1) :: rest, h => by
    have hc := List.pairwise_cons.mp h
    rw [set_cons]
    by_cases hk : k1 = k
    · rw [if_pos hk]
      exact List.pairwise_cons.mpr ⟨hc.1, hc.2⟩
    · rw [if_neg hk]
      by_cases hl : strLt k k1 = true
      · rw [if_pos hl]
        refine List.pairwise_cons.mpr ⟨?_, h⟩
        intro e he
        rcases List.mem_cons.mp he with he | he
        · rw [he]; exact hl
        · exact strLt_trans _ _ _ hl (hc.1 e he)
      · rw [if_neg hl]
        refine List.pairwise_cons.mpr ⟨?_, ordered_set k v rest hc.2⟩
        intro e he
        rcases mem_set k v e rest he with he | he
        · rw [he]
          rcases strLt_total k1 k hk with h1 | h1
          · exact h1
          · exact absurd h1 hl
        · exact hc.1 e he

theorem index_eq (k : TableName) (db : TableList) :
    index k db = if (find k db).isSome then db else set k TableAttr.default db := by
  unfold index
  cases find k db <;> rfl

theorem ordered_index (k : TableName) (db : TableList) (h : Ordered db) :
    Ordered (index k db) := by
  rw [index_eq]
  by_cases hf : (find k db).isSome
  · rw [if_pos hf]; exact h
  · rw [if_neg hf]; exact ordered_set k _ db h

end TableList
end dbfsutils

/-! ## The loaders -/

namespace dbfsutils
open TableList

theorem loadTable_eq (conn : PsqlConnection) (ds : DataSource) (k : TableName)
    (a : TableAttr) :
    loadTable conn ds k a =
      if queryOk ds k then .ok (loadedEntry conn ds k a.data)
      else .error (queryError ds (tableQuery ds k).status) := by
  unfold loadTable
  dsimp only
  split
  · rename_i h
    have hq : queryOk ds k := Or.inl h
    rw [if_pos hq]
    rfl
  · rename_i h
    have hq : queryOk ds k := Or.inr h
    rw [if_pos hq]
    rfl
  · rename_i h1 h2
    have hq : ¬ queryOk ds k := fun h => h.elim (h1 ·) (h2 ·)
    rw [if_neg hq]

theorem loadedEntry_sized (conn : PsqlConnection) (ds : DataSource) (k : TableName)
    (td : TableData) : (loadedEntry conn ds k td).Sized := rfl

theorem loadedEntry_fresh (conn : PsqlConnection) (ds : DataSource) (k : TableName) :
    (loadedEntry conn ds k []).data = freshContent ds k := rfl

theorem loadAll_cons (conn : PsqlConnection) (ds : DataSource) (k : TableName)
    (a : TableAttr) (rest : TableList) :
    loadAll conn ds ((k, a) :: rest) =
      if queryOk ds k then
        ((k, loadedEntry conn ds k a.data) :: (loadAll conn ds rest).1,
          (loadAll conn ds rest).2)
      else ((k, a) :: rest, some (queryError ds (tableQuery ds k).status)) := by
  show (match loadTable conn ds k a with
      | .error e => ((k, a) :: rest, some e)
      | .ok a1 => ((k, a1) :: (loadAll conn ds rest).1, (loadAll conn ds rest).2)) = _
  rw [loadTable_eq]
  by_cases h : queryOk ds k
  · rw [if_pos h, if_pos h]
  · rw [if_neg h, if_neg h]

theorem loadAll_keys (conn : PsqlConnection) (ds : DataSource) :
    ∀ db : TableList, keys (loadAll conn ds db).1 = keys db
  | [] => rfl
  | (k, a) :: rest => by
    rw [loadAll_cons]
    by_cases h : queryOk ds k
    · rw [if_pos h]
      show k :: keys (loadAll conn ds rest).1 = k :: keys rest
      rw [loadAll_keys conn ds rest]
    · rw [if_neg h]

theorem loadAll_sized (conn : PsqlConnection) (ds : DataSource) :
    ∀ db : TableList, (loadAll conn ds db).2 = none →
      ∀ e ∈ (loadAll conn ds db).1, e.2.Sized
  | [], _, e, he => by cases he
  | (k, a) :: rest, h, e, he => by
    rw [loadAll_cons] at h he
    by_cases hq : queryOk ds k
    · rw [if_pos hq] at h he
      rcases List.mem_cons.mp he with he | he
      · rw [he]; exact loadedEntry_sized conn ds k a.data
      · exact loadAll_sized conn ds rest h e he
    · rw [if_neg hq] at h
      cases h

theorem loadAll_find (conn : PsqlConnection) (ds : DataSource) (x : TableName) :
    ∀ db : TableList, (loadAll conn ds db).2 = none →
      find x (loadAll conn ds db).1 =
        (find x db).map (fun a => loadedEntry conn ds x a.data)
  | [], _ => rfl
  | (k, a0) :: rest, h => by
    rw [loadAll_cons] at h ⊢
    by_cases hq : queryOk ds k
    · rw [if_pos hq] at h ⊢
      rw [find_cons, find_cons]
      by_cases hk : k = x
      · rw [if_pos hk, if_pos hk, hk]; rfl
      · rw [if_neg hk, if_neg hk]
        exact loadAll_find conn ds x rest h
    · rw [if_neg hq] at h
      cases h

theorem ordered_of_keys_eq (db1 db2 : TableList) (hk : keys db1 = keys db2)
    (h : Ordered db2) : Ordered db1 := by
  unfold Ordered at h ⊢
  have h1 : (keys db2).Pairwise (fun a b => strLt a b = true) := by
    unfold keys; rw [List.pairwise_map]; exact h
  rw [← hk] at h1
  unfold keys at h1
  rw [List.pairwise_map] at h1
  exact h1

theorem loadAll_ordered (conn : PsqlConnection) (ds : DataSource) (db : TableList)
    (h : Ordered db) : Ordered (loadAll conn ds db).1 :=
  ordered_of_keys_eq _ _ (loadAll_keys conn ds db) h

theorem loadLines_cons (conn : PsqlConnection) (ds : DataSource) (k : TableName)
    (rest : List Str) (db : TableList) :
    loadLines conn ds (k :: rest) db =
      if queryOk ds k then
        loadLines conn ds rest (set k (loadedEntry conn ds k []) db)
      else
        ((match find k db with
          | some a => set k { a with data := [] } db
          | none => set k TableAttr.default db),
         some (queryError ds (tableQuery ds k).status)) := by
  cases hf : find k db with
  | some a =>
    have h2 : index k (set k { a with data := [] } db) = set k { a with data := [] } db := by
      rw [index_eq, find_set_self]; rfl
    have h3 : ref k (set k { a with data := [] } db) = { a with data := [] } := by
      unfold ref; rw [find_set_self]; rfl
    show (match loadTable conn ds k (ref k (index k (match find k db with
        | some a => set k { a with data := [] } db
        | none => index k db))) with
      | .error e => (_, some e)
      | .ok a1 => loadLines conn ds rest (set k a1 _)) = _
    simp only [hf, h2, h3, loadTable_eq]
    by_cases hq : queryOk ds k
    · simp only [if_pos hq, set_set]
    · simp only [if_neg hq]
  | none =>
    have h1 : index k db = set k TableAttr.default db := by
      rw [index_eq, hf]; rfl
    have h2 : index k (set k TableAttr.default db) = set k TableAttr.default db := by
      rw [index_eq, find_set_self]; rfl
    have h3 : ref k (set k TableAttr.default db) = TableAttr.default := by
      unfold ref; rw [find_set_self]; rfl
    show (match loadTable conn ds k (ref k (index k (match find k db with
        | some a => set k { a with data := [] } db
        | none => index k db))) with
      | .error e => (_, some e)
      | .ok a1 => loadLines conn ds rest (set k a1 _)) = _
    simp only [hf, h1, h2, h3, loadTable_eq]
    by_cases hq : queryOk ds k
    · simp only [if_pos hq, set_set]
      rfl
    · simp only [if_neg hq]

end dbfsutils

namespace dbfsutils
open TableList

theorem loadLines_nil (conn : PsqlConnection) (ds : DataSource) (db : TableList) :
    loadLines conn ds [] db = (db, none) := rfl

theorem loadLines_sized (conn : PsqlConnection) (ds : DataSource) :
    ∀ (lines : List Str) (db : TableList), (∀ e ∈ db, e.2.Sized) →
      (loadLines conn ds lines db).2 = none →
      ∀ e ∈ (loadLines conn ds lines db).1, e.2.Sized
  | [], db, hdb, _, e, he => hdb e he
  | k :: rest, db, hdb, h, e, he => by
    rw [loadLines_cons] at h he
    by_cases hq : queryOk ds k
    · rw [if_pos hq] at h he
      refine loadLines_sized conn ds rest _ ?_ h e he
      intro e1 he1
      rcases mem_set k _ e1 db he1 with h1 | h1
      · rw [h1]; exact loadedEntry_sized conn ds k []
      · exact hdb e1 h1
    · rw [if_neg hq] at h
      cases h

theorem loadLines_keys (conn : PsqlConnection) (ds : DataSource) (x : TableName) :
    ∀ (lines : List Str) (db : TableList), (loadLines conn ds lines db).2 = none →
      (x ∈ keys (loadLines conn ds lines db).1 ↔ x ∈ keys db ∨ x ∈ lines)
  | [], db, _ => by
    rw [loadLines_nil]
    exact ⟨Or.inl, fun h => h.elim id (fun h => absurd h (List.not_mem_nil _))⟩
  | k :: rest, db, h => by
    rw [loadLines_cons] at h ⊢
    by_cases hq : queryOk ds k
    · rw [if_pos hq] at h ⊢
      rw [loadLines_keys conn ds x rest _ h, keys_set, List.mem_cons]
      tauto
    · rw [if_neg hq] at h
      cases h

theorem loadLines_find_other (conn : PsqlConnection) (ds : DataSource) (x : TableName) :
    ∀ (lines : List Str) (db : TableList), (loadLines conn ds lines db).2 = none →
      x ∉ lines → find x (loadLines conn ds lines db).1 = find x db
  | [], db, _, _ => rfl
  | k :: rest, db, h, hx => by
    rw [loadLines_cons] at h ⊢
    by_cases hq : queryOk ds k
    · rw [if_pos hq] at h ⊢
      have hxk : x ≠ k := fun e => hx (e ▸ List.mem_cons_self _ _)
      have hxr : x ∉ rest := fun e => hx (List.mem_cons_of_mem _ e)
      rw [loadLines_find_other conn ds x rest _ h hxr, find_set_ne k x _ hxk]
    · rw [if_neg hq] at h
      cases h

theorem loadLines_find_listed (conn : PsqlConnection) (ds : DataSource) (x : TableName) :
    ∀ (lines : List Str) (db : TableList), (loadLines conn ds lines db).2 = none →
      x ∈ lines →
      find x (loadLines conn ds lines db).1 = some (loadedEntry conn ds x [])
  | [], db, _, hx => absurd hx (List.not_mem_nil _)
  | k :: rest, db, h, hx => by
    rw [loadLines_cons] at h ⊢
    by_cases hq : queryOk ds k
    · rw [if_pos hq] at h ⊢
      by_cases hxr : x ∈ rest
      · exact loadLines_find_listed conn ds x rest _ h hxr
      · have hxk : x = k := by
          rcases List.mem_cons.mp hx with e | e
          · exact e
          · exact absurd e hxr
        rw [loadLines_find_other conn ds x rest _ h hxr, hxk, find_set_self]
    · rw [if_neg hq] at h
      cases h

theorem loadLines_ordered (conn : PsqlConnection) (ds : DataSource) :
    ∀ (lines : List Str) (db : TableList), Ordered db →
      Ordered (loadLines conn ds lines db).1
  | [], db, hdb => hdb
  | k :: rest, db, hdb => by
    rw [loadLines_cons]
    by_cases hq : queryOk ds k
    · rw [if_pos hq]
      exact loadLines_ordered conn ds rest _ (ordered_set k _ db hdb)
    · rw [if_neg hq]
      cases find k db with
      | some a => exact ordered_set k _ db hdb
      | none => exact ordered_set k _ db hdb

/-- The loop of `loadDbByOwner` that runs `db[tableName];` for each name. -/
theorem indexAll_keys (x : TableName) :
    ∀ (names : List TableName) (db : TableList),
      (x ∈ keys (names.foldl (fun d k => index k d) db) ↔ x ∈ keys db ∨ x ∈ names)
  | [], db => ⟨Or.inl, fun h => h.elim id (fun h => absurd h (List.not_mem_nil _))⟩
  | k :: rest, db => by
    rw [List.foldl_cons, indexAll_keys x rest (index k db), index_eq, List.mem_cons]
    by_cases hf : (find k db).isSome
    · rw [if_pos hf]
      have hk : k ∈ keys db := by
        by_contra hn
        rw [← find_eq_none_iff] at hn
        rw [hn] at hf
        cases hf
      constructor
      · rintro (h | h)
        · exact Or.inl h
        · exact Or.inr (Or.inr h)
      · rintro (h | h | h)
        · exact Or.inl h
        · exact Or.inl (h ▸ hk)
        · exact Or.inr h
    · rw [if_neg hf, keys_set]
      tauto

theorem indexAll_find_old (x : TableName) (a : TableAttr) :
    ∀ (names : List TableName) (db : TableList), find x db = some a →
      find x (names.foldl (fun d k => index k d) db) = some a
  | [], _, h => h
  | k :: rest, db, h => by
    rw [List.foldl_cons]
    refine indexAll_find_old x a rest _ ?_
    rw [index_eq]
    by_cases hf : (find k db).isSome
    · rw [if_pos hf]; exact h
    · rw [if_neg hf]
      have hxk : x ≠ k := by
        intro e
        rw [e] at h
        rw [h] at hf
        exact hf rfl
      rw [find_set_ne k x _ hxk]
      exact h

theorem indexAll_find_new (x : TableName) :
    ∀ (names : List TableName) (db : TableList), find x db = none → x ∈ names →
      find x (names.foldl (fun d k => index k d) db) = some TableAttr.default
  | [], _, _, hx => absurd hx (List.not_mem_nil _)
  | k :: rest, db, h, hx => by
    rw [List.foldl_cons]
    by_cases hxk : x = k
    · refine indexAll_find_old x _ rest _ ?_
      rw [index_eq, ← hxk, h]
      exact find_set_self x _ db
    · have hxr : x ∈ rest := by
        rcases List.mem_cons.mp hx with e | e
        · exact absurd e hxk
        · exact e
      refine indexAll_find_new x rest _ ?_ hxr
      rw [index_eq]
      by_cases hf : (find k db).isSome
      · rw [if_pos hf]; exact h
      · rw [if_neg hf, find_set_ne k x _ hxk]; exact h

theorem indexAll_ordered :
    ∀ (names : List TableName) (db : TableList), Ordered db →
      Ordered (names.foldl (fun d k => index k d) db)
  | [], _, h => h
  | k :: rest, db, h => by
    rw [List.foldl_cons]
    exact indexAll_ordered rest _ (ordered_index k db h)

end dbfsutils

/-! ## The read and attribute callbacks -/

namespace dbfs
open dbfsutils

theorem toSizeT_natCast (n : Nat) (h : n < 2 ^ 64) : toSizeT (n : Int) = n := by
  unfold toSizeT
  have : ((n : Int) % 2 ^ 64) = (n : Int) :=
    Int.emod_eq_of_lt (Int.ofNat_nonneg n) (by exact_mod_cast h)
  rw [this]
  exact Int.toNat_natCast n

theorem toInt_of_lt (n : Nat) (h : n < 2 ^ 31) : toInt n = (n : Int) := by
  unfold toInt
  have h1 : n % 2 ^ 32 = n := Nat.mod_eq_of_lt (by omega)
  rw [h1, if_pos h]

theorem readFound_in_range (file : TableAttr) (size o : Nat)
    (hsize : file.sstat.st_size = (file.data.length : Int))
    (hmax : file.data.length ≤ INT_MAX)
    (hlt : o < file.data.length) (hsz : o + size < 2 ^ 64) :
    readFound file size (o : Int) =
      some (((min size (file.data.length - o) : Nat) : Int),
        (file.data.drop o).take (min size (file.data.length - o))) := by
  have hmax' : file.data.length ≤ 2 ^ 31 - 1 := hmax
  have hlen : toSizeT file.sstat.st_size = file.data.length := by
    rw [hsize]; exact toSizeT_natCast _ (by omega)
  have hoff : toSizeT (o : Int) = o := toSizeT_natCast _ (by omega)
  have hneg : ¬ ((o : Int) < 0) := by omega
  have hmax2 : ¬ (file.data.length > INT_MAX) := by omega
  have heof : ¬ (o ≥ file.data.length) := by omega
  unfold readFound
  simp only [hlen, hoff, hneg, hmax2, heof, if_false]
  rw [Nat.mod_eq_of_lt hsz]
  by_cases hshort : o + size > file.data.length
  · rw [if_pos hshort]
    have hmin : min size (file.data.length - o) = file.data.length - o := by omega
    have hcp : copy file.data o file.data.length
        = some ((file.data.drop o).take (file.data.length - o)) := by
      unfold copy
      rw [if_pos ⟨by omega, le_refl _⟩]
    have hmod : (file.data.length + 2 ^ 64 - o) % 2 ^ 64 = file.data.length - o := by
      have : file.data.length + 2 ^ 64 - o = (file.data.length - o) + 2 ^ 64 := by omega
      rw [this, Nat.add_mod_right]
      exact Nat.mod_eq_of_lt (by omega)
    rw [hcp, hmod, hmin, toInt_of_lt _ (by omega)]
    rfl
  · rw [if_neg hshort]
    have hmin : min size (file.data.length - o) = size := by omega
    have hcp : copy file.data o (o + size)
        = some ((file.data.drop o).take size) := by
      unfold copy
      rw [if_pos ⟨by omega, by omega⟩]
      congr 2
      omega
    rw [hcp, hmin, toInt_of_lt _ (by omega)]
    rfl

end dbfs

namespace dbfs
open dbfsutils

theorem readCb_found (g : Statics) (path : Str) (file : TableAttr) (size : Nat)
    (offset : Int) (hidle : g.refreshing = false)
    (hfind : TableList.find (lastComponent path) g.fsdb = some file) :
    readCb g path size offset =
      match readFound file size offset with
      | some r => .returns (g.enter.leave, r.1, r.2)
      | none => .undefined := by
  have hf : TableList.find (extractIds path).2.2 g.enter.fsdb = some file := by
    rw [(extractIds_file path).2]; exact hfind
  unfold readCb
  simp only [hidle, hf]
  rfl

theorem readCb_missing (g : Statics) (path : Str) (size : Nat) (offset : Int)
    (hidle : g.refreshing = false)
    (hfind : TableList.find (lastComponent path) g.fsdb = none) :
    readCb g path size offset = .returns (g.enter.leave, 0, []) := by
  have hf : TableList.find (extractIds path).2.2 g.enter.fsdb = none := by
    rw [(extractIds_file path).2]; exact hfind
  unfold readCb
  simp only [hidle, hf]
  rfl

theorem getattrCb_found (g : Statics) (path : Str) (file : TableAttr)
    (hidle : g.refreshing = false) (hroot : path ≠ ROOT_DIR)
    (hfind : TableList.find (lastComponent path) g.fsdb = some file) :
    getattrCb g path = .returns (g.enter.leave, 0, file.sstat) := by
  have hf : TableList.find (extractIds path).2.2 g.enter.fsdb = some file := by
    rw [(extractIds_file path).2]; exact hfind
  unfold getattrCb
  simp only [hidle, hf, if_neg hroot]
  rfl

theorem getattrCb_missing (g : Statics) (path : Str)
    (hidle : g.refreshing = false) (hroot : path ≠ ROOT_DIR)
    (hfind : TableList.find (lastComponent path) g.fsdb = none) :
    getattrCb g path = .returns (g.enter.leave, -ENOENT, Stat.zero) := by
  have hf : TableList.find (extractIds path).2.2 g.enter.fsdb = none := by
    rw [(extractIds_file path).2]; exact hfind
  unfold getattrCb
  simp only [hidle, hf, if_neg hroot]
  rfl

end dbfs

/-! ## The loaders as a whole -/

namespace dbfsutils
open TableList

theorem loadDbByOwner_ok (conn : PsqlConnection) (ds : DataSource) (db : TableList)
    (owner : Str) (h : (loadDbByOwner conn ds db owner).2 = none) :
    loadDbByOwner conn ds db owner =
      loadAll conn ds ((ownerTables ds owner).foldl (fun d k => index k d) db) := by
  unfold loadDbByOwner at h ⊢
  cases hs : ds.safeSizeT owner.length with
  | none => rw [hs] at h; cases h
  | some n =>
    rw [hs] at h
    simp only at h ⊢
    by_cases ho : owner.length = 0
    · rw [if_pos ho] at h; cases h
    · rw [if_neg ho] at h ⊢
      unfold ownerTables
      rw [List.foldl_map]
      split
      · rfl
      · rfl
      · rename_i h1 h2
        split at h
        · rename_i h3; exact absurd h3 (h1 ·)
        · rename_i h3; exact absurd h3 (h2 ·)
        · cases h

theorem loadDbByOwner_query_failed (conn : PsqlConnection) (ds : DataSource)
    (db : TableList) (owner : Str)
    (h : ds.safeSizeT owner.length = none ∨ owner.length = 0 ∨
      ((ds.exec listTables [owner]).status ≠ .PGRES_TUPLES_OK ∧
       (ds.exec listTables [owner]).status ≠ .PGRES_COMMAND_OK)) :
    (loadDbByOwner conn ds db owner).1 = db ∧
      ∃ ex, (loadDbByOwner conn ds db owner).2 = some (.byValue ex) := by
  unfold loadDbByOwner
  cases hs : ds.safeSizeT owner.length with
  | none => exact ⟨rfl, _, rfl⟩
  | some n =>
    simp only
    by_cases ho : owner.length = 0
    · rw [if_pos ho]; exact ⟨rfl, _, rfl⟩
    · rw [if_neg ho]
      rcases h with h | h | h
      · rw [hs] at h; cases h
      · exact absurd h ho
      · split
        · rename_i h3; exact absurd h3 h.1
        · rename_i h3; exact absurd h3 h.2
        · exact ⟨rfl, _, rfl⟩

theorem loadDbByList_ok (conn : PsqlConnection) (ds : DataSource) (db : TableList)
    (cfile : Str) (h : (loadDbByList conn ds db cfile).2 = none) :
    (loadAll conn ds db).2 = none ∧
    loadDbByList conn ds db cfile =
      loadLines conn ds (ds.getlines cfile) (loadAll conn ds db).1 := by
  unfold loadDbByList at h ⊢
  by_cases hc : cfile.length = 0
  · rw [if_pos hc] at h; cases h
  · rw [if_neg hc] at h ⊢
    cases hst : ds.statSize cfile with
    | none => rw [hst] at h; cases h
    | some sz =>
      rw [hst] at h
      simp only at h ⊢
      by_cases hz : sz = 0
      · rw [if_pos hz] at h; cases h
      · rw [if_neg hz] at h ⊢
        cases hl : (loadAll conn ds db).2 with
        | none =>
          refine ⟨rfl, ?_⟩
          have : loadAll conn ds db = ((loadAll conn ds db).1, none) := by
            rw [← hl]
          rw [this]
        | some e =>
          have : loadAll conn ds db = ((loadAll conn ds db).1, some e) := by
            rw [← hl]
          rw [this] at h
          cases h

theorem loadDbByList_file_failed (conn : PsqlConnection) (ds : DataSource)
    (db : TableList) (cfile : Str)
    (h : cfile.length = 0 ∨ ds.statSize cfile = none ∨ ds.statSize cfile = some 0) :
    (loadDbByList conn ds db cfile).1 = db ∧
      ∃ ex, (loadDbByList conn ds db cfile).2 = some (.byValue ex) := by
  unfold loadDbByList
  by_cases hc : cfile.length = 0
  · rw [if_pos hc]; exact ⟨rfl, _, rfl⟩
  · rw [if_neg hc]
    rcases h with h | h | h
    · exact absurd h hc
    · rw [h]; exact ⟨rfl, _, rfl⟩
    · rw [h]; exact ⟨rfl, _, rfl⟩

theorem loadDbByOwner_ordered (conn : PsqlConnection) (ds : DataSource)
    (db : TableList) (owner : Str) (h : Ordered db) :
    Ordered (loadDbByOwner conn ds db owner).1 := by
  unfold loadDbByOwner
  cases ds.safeSizeT owner.length with
  | none => exact h
  | some n =>
    simp only
    by_cases ho : owner.length = 0
    · rw [if_pos ho]; exact h
    · rw [if_neg ho]
      split
      · exact loadAll_ordered _ _ _ (by
          rw [← List.foldl_map (fun r => (ds.exec listTables [owner]).getvalue r 0)
            (fun d k => index k d)]
          exact indexAll_ordered _ _ h)
      · exact loadAll_ordered _ _ _ (by
          rw [← List.foldl_map (fun r => (ds.exec listTables [owner]).getvalue r 0)
            (fun d k => index k d)]
          exact indexAll_ordered _ _ h)
      · exact h

theorem loadDbByList_ordered (conn : PsqlConnection) (ds : DataSource)
    (db : TableList) (cfile : Str) (h : Ordered db) :
    Ordered (loadDbByList conn ds db cfile).1 := by
  unfold loadDbByList
  by_cases hc : cfile.length = 0
  · rw [if_pos hc]; exact h
  · rw [if_neg hc]
    cases ds.statSize cfile with
    | none => exact h
    | some sz =>
      simp only
      by_cases hz : sz = 0
      · rw [if_pos hz]; exact h
      · rw [if_neg hz]
        have ho := loadAll_ordered conn ds db h
        cases hl : (loadAll conn ds db).2 with
        | none =>
          have : loadAll conn ds db = ((loadAll conn ds db).1, none) := by
            rw [← hl]
          rw [this]
          exact loadLines_ordered conn ds _ _ ho
        | some e =>
          have : loadAll conn ds db = ((loadAll conn ds db).1, some e) := by
            rw [← hl]
          rw [this]
          exact ho

end dbfsutils

/-! ## The claims -/

namespace dbfs
open dbfsutils

/-- C1: with no refresh in progress, when the last component of `path`
names an entry whose recorded size is the length `len` of its content
(`len ≤ INT_MAX`), for `0 ≤ offset < len` and `offset + size < 2^64`,
`readCb` returns `n = min size (len - offset)` and writes exactly the `n`
bytes `content[offset .. offset + n)`. -/
theorem readCb_returns_requested_or_tail (g : Statics) (path : Str)
    (file : TableAttr) (size : Nat) (offset : Int)
    (hidle : g.refreshing = false)
    (hfind : TableList.find (lastComponent path) g.fsdb = some file)
    (hsize : file.sstat.st_size = (file.data.length : Int))
    (hmax : file.data.length ≤ INT_MAX)
    (h0 : 0 ≤ offset) (hlt : offset < (file.data.length : Int))
    (hsz : offset + (size : Int) < 2 ^ 64) :
    readCb g path size offset =
      .returns (g.enter.leave,
        ((min size (file.data.length - offset.toNat) : Nat) : Int),
        (file.data.drop offset.toNat).take (min size (file.data.length - offset.toNat))) ∧
    ((file.data.drop offset.toNat).take
      (min size (file.data.length - offset.toNat))).length =
        min size (file.data.length - offset.toNat) := by
  obtain ⟨o, rfl⟩ := Int.eq_ofNat_of_zero_le h0
  have hlt' : o < file.data.length := by exact_mod_cast hlt
  have hsz' : o + size < 2 ^ 64 := by exact_mod_cast hsz
  constructor
  · rw [readCb_found g path file size _ hidle hfind,
      readFound_in_range file size o hsize hmax hlt' hsz']
    rfl
  · rw [List.length_take, List.length_drop, Int.toNat_ofNat]
    omega

/-- C1 at the cache holding `users` (16 bytes): a read of 100 bytes at
offset 0 returns 16 and copies the whole content. -/
theorem readCb_returns_requested_or_tail_witness :
    readCb Example.statics "/users".toList 100 0 =
      .returns (Example.statics.enter.leave, 16, "1;alice;\n2;bob;\n".toList) ∧
    ("1;alice;\n2;bob;\n".toList).length = 16 :=
  readCb_returns_requested_or_tail Example.statics "/users".toList Example.users
    100 0 rfl (by decide) (by decide) (by decide) (by decide) (by decide) (by decide)

end dbfs

namespace dbfs
open dbfsutils

/-- C2 (evaluated at the failing input): on the cache holding only `users`,
`readCb` on `/ghost` returns `0` with nothing written, a successful empty
read, while `getattrCb` on the same path returns `-ENOENT`. -/
theorem readCb_missing_table_returns_zero :
    readCb Example.statics "/ghost".toList 10 0 =
      .returns (Example.statics.enter.leave, 0, []) ∧
    getattrCb Example.statics "/ghost".toList =
      .returns (Example.statics.enter.leave, -ENOENT, Stat.zero) :=
  ⟨readCb_missing Example.statics "/ghost".toList 10 0 rfl (by decide),
   getattrCb_missing Example.statics "/ghost".toList rfl (by decide) (by decide)⟩

/-- C3 as stated fails: at offset `-3` on the existing table `users` there
is no pair of results of `readCb` and of `getattrCb` on the missing table
`ghost` that differ; the negative offset is answered with the NotFound
code. -/
theorem readCb_negative_offset_not_distinct :
    ¬ ∃ r n : Int,
      (∃ s buf, readCb Example.statics "/users".toList 5 (-3) = .returns (s, r, buf)) ∧
      (∃ s st, getattrCb Example.statics "/ghost".toList = .returns (s, n, st)) ∧
      r ≠ n := by
  rintro ⟨r, n, ⟨s, buf, h1⟩, ⟨s1, st, h2⟩, hne⟩
  have e1 : readCb Example.statics "/users".toList 5 (-3) =
      .returns (Example.statics.enter.leave, -ENOENT, []) := by
    rw [readCb_found Example.statics "/users".toList Example.users 5 (-3) rfl (by decide)]
    rfl
  have e2 : getattrCb Example.statics "/ghost".toList =
      .returns (Example.statics.enter.leave, -ENOENT, Stat.zero) :=
    getattrCb_missing Example.statics "/ghost".toList rfl (by decide) (by decide)
  rw [e1] at h1
  rw [e2] at h2
  injection h1 with h1
  injection h2 with h2
  have hr : r = -ENOENT := (congrArg (fun p => p.2.1) h1).symm
  have hn : n = -ENOENT := (congrArg (fun p => p.2.1) h2).symm
  exact hne (hr.trans hn.symm)

/-- C3 (amended): with no refresh in progress, for every existing table,
every `offset < 0` and every `size`, `readCb` fails with `-ENOENT`, the
same code as NotFound, and writes nothing to the buffer. -/
theorem readCb_negative_offset_fails_ENOENT (g : Statics) (path : Str)
    (file : TableAttr) (size : Nat) (offset : Int)
    (hidle : g.refreshing = false)
    (hfind : TableList.find (lastComponent path) g.fsdb = some file)
    (hneg : offset < 0) :
    readCb g path size offset = .returns (g.enter.leave, -ENOENT, []) := by
  rw [readCb_found g path file size offset hidle hfind]
  unfold readFound
  simp only [if_pos hneg]

/-- C3 (amended) at the cache holding `users`, offset `-3`. -/
theorem readCb_negative_offset_fails_ENOENT_witness :
    readCb Example.statics "/users".toList 5 (-3) =
      .returns (Example.statics.enter.leave, -ENOENT, []) :=
  readCb_negative_offset_fails_ENOENT Example.statics "/users".toList Example.users
    5 (-3) rfl (by decide) (by decide)

/-- C4: with no refresh in progress, for every existing table whose
recorded size is its content length `len ≤ INT_MAX`, every `offset ≥ len`
(an `off_t`, so below `2^63`) and every `size`, `readCb` returns `0` and
writes nothing. -/
theorem readCb_at_or_past_end_returns_zero (g : Statics) (path : Str)
    (file : TableAttr) (size : Nat) (offset : Int)
    (hidle : g.refreshing = false)
    (hfind : TableList.find (lastComponent path) g.fsdb = some file)
    (hsize : file.sstat.st_size = (file.data.length : Int))
    (hmax : file.data.length ≤ INT_MAX)
    (hge : (file.data.length : Int) ≤ offset) (hoff : offset < 2 ^ 63) :
    readCb g path size offset = .returns (g.enter.leave, 0, []) := by
  have h0 : 0 ≤ offset := le_trans (Int.ofNat_nonneg _) hge
  obtain ⟨o, rfl⟩ := Int.eq_ofNat_of_zero_le h0
  have hge' : file.data.length ≤ o := by exact_mod_cast hge
  have hoff' : o < 2 ^ 63 := by exact_mod_cast hoff
  have hmax' : file.data.length ≤ 2 ^ 31 - 1 := hmax
  have hlen : toSizeT file.sstat.st_size = file.data.length := by
    rw [hsize]; exact toSizeT_natCast _ (by omega)
  have ho : toSizeT (o : Int) = o := toSizeT_natCast _ (by omega)
  have hneg : ¬ ((o : Int) < 0) := by omega
  have hmax2 : ¬ (file.data.length > INT_MAX) := by omega
  have heof : o ≥ file.data.length := hge'
  rw [readCb_found g path file size _ hidle hfind]
  unfold readFound
  simp only [hlen, ho, hneg, hmax2, heof, if_false, if_true]

/-- C4 at the cache holding `users` (16 bytes), offset 16. -/
theorem readCb_at_or_past_end_returns_zero_witness :
    readCb Example.statics "/users".toList 100 16 =
      .returns (Example.statics.enter.leave, 0, []) :=
  readCb_at_or_past_end_returns_zero Example.statics "/users".toList Example.users
    100 16 rfl (by decide) (by decide) (by decide) (by decide) (by decide)

/-- C5: with no refresh in progress and `path` other than the root,
`getattrCb` returns `0` with exactly the stored `stat` of the entry named
by the last component of `path` when that name is a key of the cache, and
`-ENOENT` (with `*stbuf` left zeroed) when it is not; so it returns `0`
if and only if the name is a key. -/
theorem getattrCb_found_iff_key (g : Statics) (path : Str)
    (hidle : g.refreshing = false) (hroot : path ≠ ROOT_DIR) :
    (lastComponent path ∈ TableList.keys g.fsdb →
      ∃ file, TableList.find (lastComponent path) g.fsdb = some file ∧
        (lastComponent path, file) ∈ g.fsdb ∧
        getattrCb g path = .returns (g.enter.leave, 0, file.sstat)) ∧
    (lastComponent path ∉ TableList.keys g.fsdb →
      getattrCb g path = .returns (g.enter.leave, -ENOENT, Stat.zero)) ∧
    ((∃ s st, getattrCb g path = .returns (s, 0, st)) ↔
      lastComponent path ∈ TableList.keys g.fsdb) := by
  have hmiss : lastComponent path ∉ TableList.keys g.fsdb →
      getattrCb g path = .returns (g.enter.leave, -ENOENT, Stat.zero) := by
    intro hk
    exact getattrCb_missing g path hidle hroot
      ((TableList.find_eq_none_iff _ _).mpr hk)
  have hhit : lastComponent path ∈ TableList.keys g.fsdb →
      ∃ file, TableList.find (lastComponent path) g.fsdb = some file ∧
        (lastComponent path, file) ∈ g.fsdb ∧
        getattrCb g path = .returns (g.enter.leave, 0, file.sstat) := by
    intro hk
    cases hf : TableList.find (lastComponent path) g.fsdb with
    | none => exact absurd hk ((TableList.find_eq_none_iff _ _).mp hf)
    | some file =>
      exact ⟨file, rfl, TableList.mem_of_find_eq_some _ _ _ hf,
        getattrCb_found g path file hidle hroot hf⟩
  refine ⟨hhit, hmiss, ?_, ?_⟩
  · rintro ⟨s, st, h⟩
    by_contra hk
    rw [hmiss hk] at h
    injection h with h
    have : (-ENOENT : Int) = 0 := congrArg (fun p => p.2.1) h
    exact absurd this (by decide)
  · intro hk
    obtain ⟨file, _, _, h⟩ := hhit hk
    exact ⟨_, _, h⟩

/-- C5 at the cache holding only `users`: `getattrCb` on `/ghost` fails with
`-ENOENT`, and on `/users` returns the stored `stat`. -/
theorem getattrCb_found_iff_key_witness :
    getattrCb Example.statics "/ghost".toList =
      .returns (Example.statics.enter.leave, -ENOENT, Stat.zero) ∧
    ∃ file, TableList.find (lastComponent "/users".toList) Example.statics.fsdb
        = some file ∧
      (lastComponent "/users".toList, file) ∈ Example.statics.fsdb ∧
      getattrCb Example.statics "/users".toList =
        .returns (Example.statics.enter.leave, 0, file.sstat) :=
  ⟨(getattrCb_found_iff_key Example.statics "/ghost".toList rfl (by decide)).2.1
      (by decide),
   (getattrCb_found_iff_key Example.statics "/users".toList rfl (by decide)).1
      (by decide)⟩

/-- C6: for every string `d` and every name `n` without `/`, `extractIds`
on `d + "/" + n` reports no error and yields the file name `n`. -/
theorem extractIds_yields_last_component (d n : Str) (hn : '/' ∉ n) :
    (extractIds (d ++ PATH_SEPARATOR ++ n)).1 = false ∧
    (extractIds (d ++ PATH_SEPARATOR ++ n)).2.2 = n := by
  have e : d ++ PATH_SEPARATOR ++ n = d ++ '/' :: n := by
    show d ++ ['/'] ++ n = d ++ '/' :: n
    rw [List.append_assoc]
    rfl
  rw [e, extractIds_sep d n hn]
  exact ⟨rfl, rfl⟩

/-- C6 at `/anything/users` and at `/users`: both resolve to `users`. -/
theorem extractIds_yields_last_component_witness :
    ((extractIds "/anything/users".toList).1 = false ∧
      (extractIds "/anything/users".toList).2.2 = "users".toList) ∧
    ((extractIds "/users".toList).1 = false ∧
      (extractIds "/users".toList).2.2 = "users".toList) :=
  ⟨extractIds_yields_last_component "/anything".toList "users".toList (by decide),
   extractIds_yields_last_component [] "users".toList (by decide)⟩

end dbfs

namespace dbfs
open dbfsutils

/-- C10: with no refresh in progress, for every cache (a map, keys strictly
ascending) and every path, `readdirCb` returns `0` and hands to `filler`
`"."`, `".."` and then exactly the keys of the cache, each once, in
ascending order; the sequence is the same for every path and a name outside
the keys is not among the table names emitted. -/
theorem readdirCb_lists_keys_in_order (g : Statics) (path : Str)
    (hidle : g.refreshing = false) (hord : TableList.Ordered g.fsdb) :
    readdirCb g path =
      .returns (g.enter.leave, 0,
        ".".toList :: "..".toList :: TableList.keys g.fsdb) ∧
    (TableList.keys g.fsdb).Pairwise (fun a b => strLt a b = true) ∧
    (TableList.keys g.fsdb).Nodup ∧
    (∀ n, n ∈ TableList.keys g.fsdb ↔ TableList.find n g.fsdb ≠ none) ∧
    (∀ path2, readdirCb g path2 = readdirCb g path) := by
  have hval : ∀ p, readdirCb g p =
      .returns (g.enter.leave, 0,
        ".".toList :: "..".toList :: TableList.keys g.fsdb) := by
    intro p
    unfold readdirCb
    simp only [hidle]
    rfl
  refine ⟨hval path, TableList.keys_pairwise_of_ordered _ hord,
    TableList.keys_nodup_of_ordered _ hord, ?_, ?_⟩
  · intro n
    rw [Ne, TableList.find_eq_none_iff, not_not]
  · intro p
    rw [hval p, hval path]

/-- C10 at the cache holding `orders` and `users`: the listing is `.`, `..`,
`orders`, `users` whatever the path, and `ghost` is not a key. -/
theorem readdirCb_lists_keys_in_order_witness :
    readdirCb Example.staticsTwo "/".toList =
      .returns (Example.staticsTwo.enter.leave, 0,
        [".".toList, "..".toList, "orders".toList, "users".toList]) ∧
    ¬ ("ghost".toList ∈ TableList.keys Example.staticsTwo.fsdb) ∧
    readdirCb Example.staticsTwo "/anything".toList =
      readdirCb Example.staticsTwo "/".toList :=
  have h := readdirCb_lists_keys_in_order Example.staticsTwo "/".toList rfl
    (by decide)
  ⟨h.1, by decide, h.2.2.2.2 _⟩

/-- C7: whatever the cache before, after a successful `loadDbByOwner` or
`loadDbByList` every entry of the cache has `st_size` equal to the length of
its content, and `getattrCb` on such a cache reports, for every table it
finds, a size equal to the content length. -/
theorem loaded_cache_sizes_match (conn : PsqlConnection) (ds : DataSource)
    (db : TableList) :
    (∀ owner, (loadDbByOwner conn ds db owner).2 = none →
      ∀ e ∈ (loadDbByOwner conn ds db owner).1,
        e.2.sstat.st_size = (e.2.data.length : Int)) ∧
    (∀ cfile, (loadDbByList conn ds db cfile).2 = none →
      ∀ e ∈ (loadDbByList conn ds db cfile).1,
        e.2.sstat.st_size = (e.2.data.length : Int)) ∧
    (∀ (g : Statics) (path : Str) (file : TableAttr),
      g.refreshing = false → path ≠ ROOT_DIR →
      ((∃ owner, loadDbByOwner conn ds db owner = (g.fsdb, none)) ∨
        (∃ cfile, loadDbByList conn ds db cfile = (g.fsdb, none))) →
      TableList.find (lastComponent path) g.fsdb = some file →
      ∃ st, getattrCb g path = .returns (g.enter.leave, 0, st) ∧
        st.st_size = (file.data.length : Int)) := by
  have howner : ∀ owner, (loadDbByOwner conn ds db owner).2 = none →
      ∀ e ∈ (loadDbByOwner conn ds db owner).1, e.2.Sized := by
    intro owner h e he
    have heq := loadDbByOwner_ok conn ds db owner h
    rw [heq] at h he
    exact loadAll_sized conn ds _ h e he
  have hlist : ∀ cfile, (loadDbByList conn ds db cfile).2 = none →
      ∀ e ∈ (loadDbByList conn ds db cfile).1, e.2.Sized := by
    intro cfile h e he
    obtain ⟨hall, heq⟩ := loadDbByList_ok conn ds db cfile h
    rw [heq] at h he
    exact loadLines_sized conn ds _ _ (loadAll_sized conn ds db hall) h e he
  refine ⟨howner, hlist, ?_⟩
  intro g path file hidle hroot hload hfind
  refine ⟨file.sstat, getattrCb_found g path file hidle hroot hfind, ?_⟩
  have hmem := TableList.mem_of_find_eq_some _ _ _ hfind
  rcases hload with ⟨owner, h⟩ | ⟨cfile, h⟩
  · have h2 : (loadDbByOwner conn ds db owner).2 = none := by rw [h]
    have h1 : (loadDbByOwner conn ds db owner).1 = g.fsdb := by rw [h]
    exact howner owner h2 _ (h1 ▸ hmem)
  · have h2 : (loadDbByList conn ds db cfile).2 = none := by rw [h]
    have h1 : (loadDbByList conn ds db cfile).1 = g.fsdb := by rw [h]
    exact hlist cfile h2 _ (h1 ▸ hmem)

/-- C7 on a cache that already holds `users`: a load by owner succeeds and
leaves every entry with `st_size` equal to its content length. -/
theorem loaded_cache_sizes_match_witness :
    (loadDbByOwner Example.conn Example.ds Example.statics.fsdb "bob".toList).2 = none ∧
    ∀ e ∈ (loadDbByOwner Example.conn Example.ds Example.statics.fsdb "bob".toList).1,
      e.2.sstat.st_size = (e.2.data.length : Int) :=
  ⟨by decide,
   (loaded_cache_sizes_match Example.conn Example.ds Example.statics.fsdb).1
     "bob".toList (by decide)⟩

end dbfs

namespace dbfs
open dbfsutils

/-- C8 as stated fails: reloading by list (the file names only `users`) a
cache that holds `orders` and `users` succeeds, yet the cache is not the one
the same load builds from an empty cache; `orders` is left over, with its
old bytes still in front of the new ones. -/
theorem reload_differs_from_fresh_load :
    (loadDbByList Example.conn Example.ds Example.staticsTwo.fsdb
      "dbfs.config".toList).2 = none ∧
    (loadDbByList Example.conn Example.ds [] "dbfs.config".toList).2 = none ∧
    TableList.keys (loadDbByList Example.conn Example.ds Example.staticsTwo.fsdb
      "dbfs.config".toList).1 = ["orders".toList, "users".toList] ∧
    TableList.keys (loadDbByList Example.conn Example.ds []
      "dbfs.config".toList).1 = ["users".toList] ∧
    (TableList.find "orders".toList (loadDbByList Example.conn Example.ds
      Example.staticsTwo.fsdb "dbfs.config".toList).1).map (fun a => a.data) =
        some "7;pen;\n7;pen;\n".toList ∧
    (loadDbByList Example.conn Example.ds Example.staticsTwo.fsdb
      "dbfs.config".toList).1 ≠
      (loadDbByList Example.conn Example.ds [] "dbfs.config".toList).1 := by
  refine ⟨by decide, by decide, by decide, by decide, by decide, ?_⟩
  intro h
  have hk := congrArg TableList.keys h
  revert hk
  decide

/-- C8 (amended): a successful reload by `loadDbByOwner` or `loadDbByList`
keeps every key already in the cache and adds the tables returned by the
owner query, respectively named in the list; the content of every table
named in the list (by list), and of every returned table that was not in
the cache before (by owner), is the serialization of the freshly queried
rows only, with the row count of that query. -/
theorem reload_keeps_keys_and_loads_named_tables (conn : PsqlConnection)
    (ds : DataSource) (db : TableList) :
    (∀ owner, (loadDbByOwner conn ds db owner).2 = none →
      (∀ x, x ∈ TableList.keys (loadDbByOwner conn ds db owner).1 ↔
        x ∈ TableList.keys db ∨ x ∈ ownerTables ds owner) ∧
      (∀ x ∈ ownerTables ds owner, x ∉ TableList.keys db →
        ∃ a, TableList.find x (loadDbByOwner conn ds db owner).1 = some a ∧
          a.data = freshContent ds x ∧ a.rnum = (tableQuery ds x).ntuples)) ∧
    (∀ cfile, (loadDbByList conn ds db cfile).2 = none →
      (∀ x, x ∈ TableList.keys (loadDbByList conn ds db cfile).1 ↔
        x ∈ TableList.keys db ∨ x ∈ ds.getlines cfile) ∧
      (∀ x ∈ ds.getlines cfile,
        ∃ a, TableList.find x (loadDbByList conn ds db cfile).1 = some a ∧
          a.data = freshContent ds x ∧ a.rnum = (tableQuery ds x).ntuples)) := by
  constructor
  · intro owner h
    have heq := loadDbByOwner_ok conn ds db owner h
    rw [heq] at h ⊢
    constructor
    · intro x
      rw [loadAll_keys, indexAll_keys]
    · intro x hx hnew
      have hnone := (TableList.find_eq_none_iff x db).mpr hnew
      refine ⟨loadedEntry conn ds x [], ?_, rfl, rfl⟩
      rw [loadAll_find conn ds x _ h, indexAll_find_new x _ db hnone hx]
      rfl
  · intro cfile h
    obtain ⟨hall, heq⟩ := loadDbByList_ok conn ds db cfile h
    rw [heq] at h ⊢
    constructor
    · intro x
      rw [loadLines_keys conn ds x _ _ h, loadAll_keys]
    · intro x hx
      exact ⟨loadedEntry conn ds x [], loadLines_find_listed conn ds x _ _ h hx,
        rfl, rfl⟩

/-- C8 (amended) on the cache holding `orders` and `users`, reloaded by the
list naming `users`: both keys are there afterwards and `users` holds the
fresh serialization. -/
theorem reload_keeps_keys_and_loads_named_tables_witness :
    (loadDbByList Example.conn Example.ds Example.staticsTwo.fsdb
      "dbfs.config".toList).2 = none ∧
    ("orders".toList ∈ TableList.keys (loadDbByList Example.conn Example.ds
      Example.staticsTwo.fsdb "dbfs.config".toList).1) ∧
    ∃ a, TableList.find "users".toList (loadDbByList Example.conn Example.ds
        Example.staticsTwo.fsdb "dbfs.config".toList).1 = some a ∧
      a.data = freshContent Example.ds "users".toList ∧
      a.rnum = (tableQuery Example.ds "users".toList).ntuples :=
  have h := (reload_keeps_keys_and_loads_named_tables Example.conn Example.ds
    Example.staticsTwo.fsdb).2 "dbfs.config".toList (by decide)
  ⟨by decide, (h.1 _).mpr (Or.inl (by decide)), h.2 _ (by decide)⟩

/-- C9 as stated fails: a reload by list (the file names `users` and
`zombie`) over the cache holding `users` raises when the query for `zombie`
is rejected, and leaves a cache with the new key `zombie`. -/
theorem failed_reload_changes_cache :
    (∃ ex, (initFileSystem Example.dbfsByList Example.statics Example.ds
      "db".toList "u".toList "127.0.0.1".toList "5432".toList "p".toList).2.2 =
        .error (.byValue ex)) ∧
    TableList.keys Example.statics.fsdb = ["users".toList] ∧
    TableList.keys (initFileSystem Example.dbfsByList Example.statics Example.ds
      "db".toList "u".toList "127.0.0.1".toList "5432".toList "p".toList).2.1.fsdb =
        ["users".toList, "zombie".toList] ∧
    (initFileSystem Example.dbfsByList Example.statics Example.ds
      "db".toList "u".toList "127.0.0.1".toList "5432".toList "p".toList).2.1.fsdb ≠
        Example.statics.fsdb := by
  refine ⟨⟨_, rfl⟩, by decide, by decide, ?_⟩
  intro h
  have hk := congrArg TableList.keys h
  revert hk
  decide

end dbfs

namespace dbfs
open dbfsutils

theorem initFileSystem_raises (self : Dbfs) (g : Statics) (ds : DataSource)
    (dbname user address port pwd : Str) (ex : DbConnExc)
    (hdb : (initBody { self with
        dbName := dbname, userName := user, dbAddress := address,
        dbPort := port, dbPwd := pwd } g ds dbname user address port pwd).2.1 = g.fsdb)
    (hex : (initBody { self with
        dbName := dbname, userName := user, dbAddress := address,
        dbPort := port, dbPwd := pwd } g ds dbname user address port pwd).2.2
          = some (.byValue ex)) :
    (initFileSystem self g ds dbname user address port pwd).2.1 = g ∧
    (initFileSystem self g ds dbname user address port pwd).2.2 =
      .error (.byValue ex) := by
  unfold initFileSystem
  simp only [hex, hdb]
  exact ⟨trivial, trivial⟩

/-- C9 (amended): when a reload fails before any table is loaded, because
`connect` raises (the connection is refused), or (by owner) the owner name
is refused or the table-list query is rejected, or (by list) the
configuration file name is empty or the file is missing or empty, a
`DbConnExc` is raised inside the `try` block and the cache, with the other
statics, is exactly as it was before the reload began. -/
theorem failed_reload_before_loading_keeps_cache (self : Dbfs) (g : Statics)
    (ds : DataSource) (dbname user address port pwd : Str)
    (h : ds.connectionBad (connectionStringOf dbname user address port pwd) = true ∨
      (self.owner.length ≠ 0 ∧ g.refreshing = false ∧
        (ds.safeSizeT self.owner.length = none ∨
          ((ds.exec listTables [self.owner]).status ≠ .PGRES_TUPLES_OK ∧
           (ds.exec listTables [self.owner]).status ≠ .PGRES_COMMAND_OK))) ∨
      (¬ (self.owner.length ≠ 0 ∧ g.refreshing = false) ∧
        (self.configurationFile.length = 0 ∨
          ds.statSize self.configurationFile = none ∨
          ds.statSize self.configurationFile = some 0))) :
    (∃ ex, (initBody { self with
        dbName := dbname, userName := user, dbAddress := address,
        dbPort := port, dbPwd := pwd } g ds dbname user address port pwd).2.2 =
      some (.byValue ex)) ∧
    (initBody { self with
        dbName := dbname, userName := user, dbAddress := address,
        dbPort := port, dbPwd := pwd } g ds dbname user address port pwd).2.1 =
      g.fsdb ∧
    (initFileSystem self g ds dbname user address port pwd).2.1 = g ∧
    (initFileSystem self g ds dbname user address port pwd).2.1.fsdb = g.fsdb := by
  have hbody : ∃ ex,
      (initBody { self with
        dbName := dbname, userName := user, dbAddress := address,
        dbPort := port, dbPwd := pwd } g ds dbname user address port pwd).2.1 =
        g.fsdb ∧
      (initBody { self with
        dbName := dbname, userName := user, dbAddress := address,
        dbPort := port, dbPwd := pwd } g ds dbname user address port pwd).2.2 =
        some (.byValue ex) := by
    by_cases hbad :
        ds.connectionBad (connectionStringOf dbname user address port pwd) = true
    · exact ⟨DbConnExc.ofString "Connection Error".toList,
        by unfold initBody connect; simp only [hbad, if_true],
        by unfold initBody connect; simp only [hbad, if_true]⟩
    · rcases h with h | ⟨ho, hr, hq⟩ | ⟨hmode, hf⟩
      · exact absurd h hbad
      · have hmode : self.owner.length ≠ 0 ∧ g.refreshing = false := ⟨ho, hr⟩
        obtain ⟨h1, ex, h2⟩ := loadDbByOwner_query_failed
          { self.dbconn with
            connectionString := connectionStringOf dbname user address port pwd }
          ds g.fsdb self.owner
          (hq.elim Or.inl (fun h => Or.inr (Or.inr h)))
        exact ⟨ex,
          by unfold initBody connect; simp only [hbad, if_pos hmode]; exact h1,
          by unfold initBody connect; simp only [hbad, if_pos hmode]; exact h2⟩
      · obtain ⟨h1, ex, h2⟩ := loadDbByList_file_failed
          { self.dbconn with
            connectionString := connectionStringOf dbname user address port pwd }
          ds g.fsdb self.configurationFile hf
        exact ⟨ex,
          by unfold initBody connect; simp only [hbad, if_neg hmode]; exact h1,
          by unfold initBody connect; simp only [hbad, if_neg hmode]; exact h2⟩
  obtain ⟨ex, hdb, hex⟩ := hbody
  have hb := initFileSystem_raises self g ds dbname user address port pwd ex hdb hex
  exact ⟨⟨ex, hex⟩, hdb, hb.1, by rw [hb.1]⟩

/-- C9 (amended) with the connection refused, over the cache holding
`users`: `connect` raises and the statics, the cache among them, are
unchanged. -/
theorem failed_reload_before_loading_keeps_cache_witness :
    (∃ ex, (initBody { Example.dbfsByList with
        dbName := "db".toList, userName := "u".toList,
        dbAddress := "127.0.0.1".toList, dbPort := "5432".toList,
        dbPwd := "p".toList } Example.statics Example.dsDown
        "db".toList "u".toList "127.0.0.1".toList "5432".toList "p".toList).2.2 =
      some (.byValue ex)) ∧
    (initBody { Example.dbfsByList with
        dbName := "db".toList, userName := "u".toList,
        dbAddress := "127.0.0.1".toList, dbPort := "5432".toList,
        dbPwd := "p".toList } Example.statics Example.dsDown
        "db".toList "u".toList "127.0.0.1".toList "5432".toList "p".toList).2.1 =
      Example.statics.fsdb ∧
    (initFileSystem Example.dbfsByList Example.statics Example.dsDown
      "db".toList "u".toList "127.0.0.1".toList "5432".toList "p".toList).2.1 =
        Example.statics ∧
    (initFileSystem Example.dbfsByList Example.statics Example.dsDown
      "db".toList "u".toList "127.0.0.1".toList "5432".toList "p".toList).2.1.fsdb =
        Example.statics.fsdb :=
  failed_reload_before_loading_keeps_cache Example.dbfsByList Example.statics
    Example.dsDown "db".toList "u".toList "127.0.0.1".toList "5432".toList
    "p".toList (Or.inl rfl)

end dbfs

/-! ## The claims on attributes, serialization and modes -/

namespace dbfsutils

theorem loadRow_eq (result : PGresult) (r : Nat) :
    ∀ (fields : List Nat) (tdata : TableData),
      fields.foldl (fun td f => td ++ result.getvalue r f ++ [';']) tdata ++ ['\n'] =
        tdata ++ serializeRow (fields.map (result.getvalue r))
  | [], tdata => rfl
  | f :: fields, tdata => by
    rw [List.foldl_cons, loadRow_eq result r fields]
    simp only [List.map_cons, serializeRow, List.append_assoc, List.singleton_append]

theorem loadRows_eq (result : PGresult) (retFields : Nat) :
    ∀ (rowIds : List Nat) (tdata : TableData),
      rowIds.foldl (loadRow result retFields) tdata =
        tdata ++ serializeRows
          (rowIds.map (fun r => (List.range retFields).map (result.getvalue r)))
  | [], tdata => by simp [serializeRows]
  | r :: rowIds, tdata => by
    rw [List.foldl_cons, loadRows_eq result retFields rowIds]
    unfold loadRow
    rw [loadRow_eq]
    simp only [List.map_cons, serializeRows, List.append_assoc]

theorem loadRows_serialize (result : PGresult) :
    loadRows result result.ntuples result.nfields [] = serializeRows result.rows := by
  unfold loadRows PGresult.rows
  rw [loadRows_eq]
  rfl

end dbfsutils

namespace dbfs
open dbfsutils

/-- C11 as stated fails: the mode `getattrCb` reports for the root has the
permission bits `0777`, which are not the bits `0555` of r-xr-xr-x. -/
theorem getattrCb_root_mode_not_0555 :
    ¬ ∃ s st, getattrCb Example.statics "/".toList = .returns (s, 0, st) ∧
      st.st_mode &&& 0o777 = 0o555 := by
  rintro ⟨s, st, h, hmode⟩
  have e : getattrCb Example.statics "/".toList =
      .returns (Example.statics.enter.leave, 0,
        { Stat.zero with st_mode := S_IFDIR ||| 0o777, st_nlink := 2 }) := rfl
  rw [e] at h
  injection h with h
  have hst : st = { Stat.zero with st_mode := S_IFDIR ||| 0o777, st_nlink := 2 } :=
    (congrArg (fun p => p.2.2) h).symm
  rw [hst] at hmode
  revert hmode
  decide

/-- C11 (amended): with no refresh in progress, for every cache state
`getattrCb("/")` returns `0` with file type directory, permission bits read,
write and execute for owner, group and others (`0777`), link count 2 and
every other field zero. -/
theorem getattrCb_root_attributes (g : Statics) (hidle : g.refreshing = false) :
    getattrCb g ROOT_DIR =
      .returns (g.enter.leave, 0,
        { Stat.zero with st_mode := S_IFDIR ||| 0o777, st_nlink := 2 }) ∧
    (S_IFDIR ||| 0o777) &&& S_IFMT = S_IFDIR ∧
    (S_IFDIR ||| 0o777) &&& 0o777 = 0o777 := by
  refine ⟨?_, by decide, by decide⟩
  unfold getattrCb
  simp only [hidle]
  rfl

/-- C11 (amended) at the cache holding `users`. -/
theorem getattrCb_root_attributes_witness :
    getattrCb Example.statics "/".toList =
      .returns (Example.statics.enter.leave, 0,
        { Stat.zero with st_mode := S_IFDIR ||| 0o777, st_nlink := 2 }) ∧
    (S_IFDIR ||| 0o777) &&& S_IFMT = S_IFDIR ∧
    (S_IFDIR ||| 0o777) &&& 0o777 = 0o777 :=
  getattrCb_root_attributes Example.statics rfl

/-- C12: when the query for the table is accepted, `loadTable` applied to an
entry with empty content sets the content to the concatenation, over the
rows in order, of every field text followed by `;` and a newline after each
row. -/
theorem loadTable_serializes_rows (conn : PsqlConnection) (ds : DataSource)
    (tableName : TableName) (tableAttr : TableAttr)
    (hok : queryOk ds tableName) (hempty : tableAttr.data = []) :
    ∃ loaded, loadTable conn ds tableName tableAttr = .ok loaded ∧
      loaded.data = serializeRows (tableQuery ds tableName).rows := by
  refine ⟨loadedEntry conn ds tableName tableAttr.data, ?_, ?_⟩
  · rw [loadTable_eq, if_pos hok]
  · rw [hempty]
    exact loadRows_serialize (tableQuery ds tableName)

/-- C12 at the rows `(1, alice)`, `(2, bob)`: the content is
`1;alice;\n2;bob;\n`. -/
theorem loadTable_serializes_rows_witness :
    (tableQuery Example.ds "users".toList).rows =
      [["1".toList, "alice".toList], ["2".toList, "bob".toList]] ∧
    serializeRows [["1".toList, "alice".toList], ["2".toList, "bob".toList]] =
      "1;alice;\n2;bob;\n".toList ∧
    ∃ loaded, loadTable Example.conn Example.ds "users".toList TableAttr.default =
        .ok loaded ∧
      loaded.data = serializeRows (tableQuery Example.ds "users".toList).rows :=
  ⟨by decide, by decide,
   loadTable_serializes_rows Example.conn Example.ds "users".toList TableAttr.default
     (by decide) rfl⟩

end dbfs

namespace dbfs
open dbfsutils

theorem enter_leave (g : Statics) (hrange : g.running < 2 ^ 64) :
    g.enter.leave = g := by
  obtain ⟨refreshing, running, fsdb⟩ := g
  have h : ((running + 1) % 2 ^ 64 + (2 ^ 64 - 1)) % 2 ^ 64 = running := by
    have hr : running < 2 ^ 64 := hrange
    omega
  show Statics.mk refreshing (((running + 1) % 2 ^ 64 + (2 ^ 64 - 1)) % 2 ^ 64) fsdb = _
  rw [h]

/-- C13 as stated fails: the content `1;alice;\n2;bob;\n` has 16 bytes, and
the read of 100 bytes at offset 0 does not return 14. -/
theorem readCb_users_not_14 :
    ("1;alice;\n2;bob;\n".toList).length = 16 ∧
    Example.users.data = "1;alice;\n2;bob;\n".toList ∧
    ¬ ∃ s buf, readCb Example.statics "/users".toList 100 0 = .returns (s, 14, buf) := by
  refine ⟨by decide, by decide, ?_⟩
  rintro ⟨s, buf, h⟩
  have e : readCb Example.statics "/users".toList 100 0 =
      .returns (Example.statics.enter.leave, 16, "1;alice;\n2;bob;\n".toList) := by
    rw [readCb_found Example.statics "/users".toList Example.users 100 0 rfl (by decide)]
    rfl
  rw [e] at h
  injection h with h
  have : (16 : Int) = 14 := congrArg (fun p => p.2.1) h
  exact absurd this (by decide)

/-- C13 (amended): with the cache holding `users` whose content is
`1;alice;\n2;bob;\n` (16 bytes, recorded size 16), `readCb("/users", size
100, offset 0)` returns 16 and copies the whole content, not 100 bytes, and
`getattrCb("/users")` reports size 16. -/
theorem readCb_users_whole_content :
    Example.users.sstat.st_size = 16 ∧
    readCb Example.statics "/users".toList 100 0 =
      .returns (Example.statics, 16, "1;alice;\n2;bob;\n".toList) ∧
    (∃ st, getattrCb Example.statics "/users".toList =
        .returns (Example.statics, 0, st) ∧ st.st_size = 16) := by
  have hg : Example.statics.enter.leave = Example.statics :=
    enter_leave Example.statics (by decide)
  refine ⟨by decide, ?_, Example.users.sstat, ?_, by decide⟩
  · rw [readCb_found Example.statics "/users".toList Example.users 100 0 rfl (by decide),
      hg]
    rfl
  · rw [getattrCb_found Example.statics "/users".toList Example.users rfl (by decide)
      (by decide), hg]

/-- C15: run on its own with no refresh in progress (and `running` in the
range of `unsigned long`), each of `getattrCb`, `readdirCb`, `openCb` returns
with the statics, `running` included, as they were before the call, and so
does `readCb` on every path on which it returns; it returns on the
not-found, negative-offset, oversize and end-of-file paths and whenever the
copy lies inside the content. From `running = 0` the value is 0 again. -/
theorem callbacks_restore_running (g : Statics) (path : Str) (size : Nat)
    (offset : Int) (hidle : g.refreshing = false) (hrange : g.running < 2 ^ 64) :
    (∃ r st, getattrCb g path = .returns (g, r, st)) ∧
    (∃ names, readdirCb g path = .returns (g, 0, names)) ∧
    openCb g path = .returns (g, 0) ∧
    (readCb g path size offset = .undefined ∨
      ∃ r buf, readCb g path size offset = .returns (g, r, buf)) ∧
    (∀ out, readCb g path size offset = .returns out → out.1.running = g.running) ∧
    (TableList.find (lastComponent path) g.fsdb = none →
      readCb g path size offset = .returns (g, 0, [])) ∧
    (∀ file, TableList.find (lastComponent path) g.fsdb = some file →
      (offset < 0 ∨ toSizeT file.sstat.st_size > INT_MAX ∨
        toSizeT offset ≥ toSizeT file.sstat.st_size) →
      ∃ r, readCb g path size offset = .returns (g, r, [])) ∧
    (∀ (file : TableAttr) (o : Nat),
      TableList.find (lastComponent path) g.fsdb = some file →
      file.sstat.st_size = (file.data.length : Int) →
      file.data.length ≤ INT_MAX → offset = (o : Int) → o < file.data.length →
      o + size < 2 ^ 64 →
      ∃ r buf, readCb g path size offset = .returns (g, r, buf)) := by
  have hg := enter_leave g hrange
  have hread : readCb g path size offset = .undefined ∨
      ∃ r buf, readCb g path size offset = .returns (g, r, buf) := by
    cases hf : TableList.find (lastComponent path) g.fsdb with
    | none =>
      right
      exact ⟨0, [], by rw [readCb_missing g path size offset hidle hf, hg]⟩
    | some file =>
      rw [readCb_found g path file size offset hidle hf]
      cases readFound file size offset with
      | none => left; rfl
      | some r => right; exact ⟨r.1, r.2, by rw [hg]⟩
  refine ⟨?_, ?_, rfl, hread, ?_, ?_, ?_, ?_⟩
  rotate_right
  · intro file o hf hsized hmax ho hlt hsz
    rw [readCb_found g path file size offset hidle hf, hg, ho,
      readFound_in_range file size o hsized hmax hlt hsz]
    exact ⟨_, _, rfl⟩
  · unfold getattrCb
    simp only [hidle]
    exact ⟨_, _, by rw [hg]; rfl⟩
  · unfold readdirCb
    simp only [hidle]
    exact ⟨_, by rw [hg]; rfl⟩
  · intro out hout
    rcases hread with h | ⟨r, buf, h⟩
    · rw [h] at hout; cases hout
    · rw [h] at hout
      injection hout with hout
      rw [← hout]
  · intro hf
    rw [readCb_missing g path size offset hidle hf, hg]
  · intro file hf hcase
    rw [readCb_found g path file size offset hidle hf, hg]
    unfold readFound
    by_cases h1 : offset < 0
    · exact ⟨-ENOENT, by simp only [if_pos h1]⟩
    · by_cases h2 : toSizeT file.sstat.st_size > INT_MAX
      · exact ⟨-ENOENT, by simp only [if_neg h1, if_pos h2]⟩
      · have h3 : toSizeT offset ≥ toSizeT file.sstat.st_size := by
          rcases hcase with h | h | h
          · exact absurd h h1
          · exact absurd h h2
          · exact h
        exact ⟨0, by simp only [if_neg h1, if_neg h2, if_pos h3]⟩

/-- C15 at the cache holding `users` with `running = 0`: the counter is 0
after `getattrCb`, after `readdirCb`, after `openCb` and after a short read
by `readCb`. -/
theorem callbacks_restore_running_witness :
    Example.statics.running = 0 ∧
    (∃ r st, getattrCb Example.statics "/users".toList =
      .returns (Example.statics, r, st)) ∧
    (∃ names, readdirCb Example.statics "/users".toList =
      .returns (Example.statics, 0, names)) ∧
    openCb Example.statics "/users".toList = .returns (Example.statics, 0) ∧
    (∀ out, readCb Example.statics "/users".toList 100 3 = .returns out →
      out.1.running = Example.statics.running) ∧
    readCb Example.statics "/users".toList 100 3 =
      .returns (Example.statics, 13, "lice;\n2;bob;\n".toList) :=
  have h := callbacks_restore_running Example.statics "/users".toList 100 3 rfl
    (by decide)
  ⟨rfl, h.1, h.2.1, h.2.2.1, h.2.2.2.2.1, by
    rw [readCb_found Example.statics "/users".toList Example.users 100 3 rfl (by decide),
      enter_leave Example.statics (by decide)]
    rfl⟩

/-- C19: the serialization of `loadTable` is not injective: a result of one
row with the single field `a;b` and a result of one row with the two fields
`a` and `b` are different and are loaded to the same content, `a;b;\n`. -/
theorem loadTable_serialization_not_injective :
    (tableQuery Example.dsPair "joined".toList).rows = [["a;b".toList]] ∧
    (tableQuery Example.dsPair "split".toList).rows = [["a".toList, "b".toList]] ∧
    (tableQuery Example.dsPair "joined".toList).rows ≠
      (tableQuery Example.dsPair "split".toList).rows ∧
    (∃ x y, loadTable Example.conn Example.dsPair "joined".toList TableAttr.default
        = .ok x ∧
      loadTable Example.conn Example.dsPair "split".toList TableAttr.default = .ok y ∧
      x.data = y.data ∧ x.data = "a;b;\n".toList) ∧
    serializeRows [["a;b".toList]] = serializeRows [["a".toList, "b".toList]] := by
  refine ⟨by decide, by decide, by decide, ?_, by decide⟩
  refine ⟨loadedEntry Example.conn Example.dsPair "joined".toList [],
    loadedEntry Example.conn Example.dsPair "split".toList [], ?_, ?_, by decide,
    by decide⟩
  · rw [loadTable_eq, if_pos (by decide)]; rfl
  · rw [loadTable_eq, if_pos (by decide)]; rfl

/-- C20: every entry `loadTable` loads through a connection object built by
the constructor (whatever its connection string) has the mode of a regular
file with permission bits exactly `0444`, no write and no execute bit, and
`getattrCb` returns that mode unchanged for an entry of the cache. -/
theorem loadTable_mode_read_only (uid gid : Nat) (connectionString : Str)
    (ds : DataSource) (tableName : TableName) (tableAttr loaded : TableAttr)
    (hload : loadTable
      { PsqlConnection.new uid gid with connectionString := connectionString }
      ds tableName tableAttr = .ok loaded) :
    loaded.sstat.st_mode = S_IFREG ||| 0o444 ∧
    loaded.sstat.st_mode &&& S_IFMT = S_IFREG ∧
    loaded.sstat.st_mode &&& 0o777 = 0o444 ∧
    loaded.sstat.st_mode &&& 0o333 = 0 ∧
    (∀ (g : Statics) (path : Str), g.refreshing = false → path ≠ ROOT_DIR →
      TableList.find (lastComponent path) g.fsdb = some loaded →
      ∃ st, getattrCb g path = .returns (g.enter.leave, 0, st) ∧
        st.st_mode = loaded.sstat.st_mode) := by
  have hmode : loaded.sstat.st_mode = S_IFREG ||| 0o444 := by
    rw [loadTable_eq] at hload
    split at hload
    · injection hload with hload
      rw [← hload]
      rfl
    · cases hload
  refine ⟨hmode, ?_, ?_, ?_, ?_⟩
  · rw [hmode]; decide
  · rw [hmode]; decide
  · rw [hmode]; decide
  · intro g path hidle hroot hfind
    exact ⟨loaded.sstat, getattrCb_found g path loaded hidle hroot hfind, rfl⟩

/-- C20 at the table `users`: the loaded entry has mode `S_IFREG | 0444`. -/
theorem loadTable_mode_read_only_witness :
    loadTable { PsqlConnection.new 1000 1000 with connectionString := [] }
      Example.ds "users".toList TableAttr.default = .ok Example.users ∧
    Example.users.sstat.st_mode = S_IFREG ||| 0o444 ∧
    Example.users.sstat.st_mode &&& 0o333 = 0 :=
  have hload : loadTable { PsqlConnection.new 1000 1000 with connectionString := [] }
      Example.ds "users".toList TableAttr.default = .ok Example.users := by
    rw [loadTable_eq, if_pos (by decide)]; rfl
  have h := loadTable_mode_read_only 1000 1000 [] Example.ds "users".toList
    TableAttr.default Example.users hload
  ⟨hload, h.1, h.2.2.2.1⟩

end dbfs

/-! ## The claims on refresh, the gate and startup -/

namespace dbfs
open dbfsutils

theorem initFileSystem_fsdb (self : Dbfs) (g : Statics) (ds : DataSource)
    (dbname user address port pwd : Str) :
    (initFileSystem self g ds dbname user address port pwd).2.1.fsdb =
      (initBody { self with
        dbName := dbname, userName := user, dbAddress := address,
        dbPort := port, dbPwd := pwd } g ds dbname user address port pwd).2.1 := by
  unfold initFileSystem
  dsimp only
  split <;> rfl

theorem initBody_connected (self : Dbfs) (g : Statics) (ds : DataSource)
    (dbname user address port pwd : Str)
    (hconn : ds.connectionBad (connectionStringOf dbname user address port pwd) = false) :
    (initBody self g ds dbname user address port pwd).2 =
      if self.owner.length ≠ 0 ∧ g.refreshing = false then
        loadDbByOwner { self.dbconn with
          connectionString := connectionStringOf dbname user address port pwd }
          ds g.fsdb self.owner
      else
        loadDbByList { self.dbconn with
          connectionString := connectionStringOf dbname user address port pwd }
          ds g.fsdb self.configurationFile := by
  unfold initBody connect
  simp only [hconn]
  rfl

theorem refreshHdlr_returns_fsdb (self self1 : Dbfs) (g g1 : Statics) (ds : DataSource)
    (h : refreshHdlr self g ds = .returns self1 g1) :
    g1.fsdb = (refreshDb self { g with refreshing := true } ds).2.1.fsdb := by
  unfold refreshHdlr at h
  dsimp only at h
  split at h
  · cases h
  · split at h
    · injection h with h1 h2
      rw [← h2]
    · split at h
      · injection h with h1 h2
        rw [← h2]
      · cases h

/-- C14 as stated fails: with the owner `bob` configured and no `-f` option
the first load goes by owner, while the refresh calls `loadDbByList` on the
empty file name, which raises, although a load by owner would succeed. -/
theorem refresh_ignores_owner_mode :
    Example.dbfsByOwner.owner = "bob".toList ∧
    (initFileSystem Example.dbfsByOwner
        { refreshing := false, running := 0, fsdb := [] } Example.ds
        "db".toList "u".toList "127.0.0.1".toList "5432".toList "p".toList).2.1.fsdb =
      (loadDbByOwner Example.conn Example.ds [] "bob".toList).1 ∧
    (loadDbByOwner Example.conn Example.ds Example.statics.fsdb "bob".toList).2 = none ∧
    (refreshDb Example.dbfsByOwner { Example.statics with refreshing := true }
        Example.ds).2.2 =
      .error (.byValue (DbConnExc.ofString "Config file's name param is empty.".toList)) ∧
    refreshHdlr Example.dbfsByOwner Example.statics Example.ds = .terminate := by
  refine ⟨rfl, by decide, by decide, rfl, rfl⟩

/-- C14 (amended): once connected, a load run with `refreshing` false goes by
owner whenever a non-empty owner was configured and by list otherwise, and a
load run with `refreshing` true goes by list from the configuration file
whatever the owner; `refreshHdlr` sets `refreshing` before it calls
`refreshDb`, so the cache it leaves when it returns is the one
`loadDbByList` built. -/
theorem load_mode_follows_refreshing_flag (self : Dbfs) (g : Statics)
    (ds : DataSource) (dbname user address port pwd : Str)
    (hconn : ds.connectionBad (connectionStringOf dbname user address port pwd) = false) :
    (g.refreshing = false → self.owner.length ≠ 0 →
      (initFileSystem self g ds dbname user address port pwd).2.1.fsdb =
        (loadDbByOwner { self.dbconn with
          connectionString := connectionStringOf dbname user address port pwd }
          ds g.fsdb self.owner).1) ∧
    (g.refreshing = false → self.owner.length = 0 →
      (initFileSystem self g ds dbname user address port pwd).2.1.fsdb =
        (loadDbByList { self.dbconn with
          connectionString := connectionStringOf dbname user address port pwd }
          ds g.fsdb self.configurationFile).1) ∧
    (g.refreshing = true →
      (initFileSystem self g ds dbname user address port pwd).2.1.fsdb =
        (loadDbByList { self.dbconn with
          connectionString := connectionStringOf dbname user address port pwd }
          ds g.fsdb self.configurationFile).1) ∧
    (dbname = self.dbName → user = self.userName → address = self.dbAddress →
      port = self.dbPort → pwd = self.dbPwd →
      self.dbName.length ≠ 0 → self.userName.length ≠ 0 →
      self.dbAddress.length ≠ 0 → self.dbPort.length ≠ 0 → self.dbPwd.length ≠ 0 →
      ∀ self1 g1, refreshHdlr self g ds = .returns self1 g1 →
        g1.fsdb =
          (loadDbByList { self.dbconn with
            connectionString := connectionStringOf dbname user address port pwd }
            ds g.fsdb self.configurationFile).1) := by
  have hbody := fun (g0 : Statics) =>
    initBody_connected { self with
      dbName := dbname, userName := user, dbAddress := address,
      dbPort := port, dbPwd := pwd } g0 ds dbname user address port pwd hconn
  refine ⟨?_, ?_, ?_, ?_⟩
  · intro hidle howner
    rw [initFileSystem_fsdb, hbody g, if_pos ⟨howner, hidle⟩]
  · intro hidle howner
    rw [initFileSystem_fsdb, hbody g, if_neg (fun h => h.1 howner)]
  · intro hrefr
    rw [initFileSystem_fsdb, hbody g, if_neg (fun h => by rw [hrefr] at h; cases h.2)]
  · intro h1 h2 h3 h4 h5 n1 n2 n3 n4 n5 self1 g1 hret
    rw [refreshHdlr_returns_fsdb self self1 g g1 ds hret]
    have hne : ¬ (self.dbName.length = 0 ∨ self.userName.length = 0 ∨
        self.dbAddress.length = 0 ∨ self.dbPort.length = 0 ∨
        self.dbPwd.length = 0) := by
      rintro (h | h | h | h | h)
      · exact n1 h
      · exact n2 h
      · exact n3 h
      · exact n4 h
      · exact n5 h
    unfold refreshDb
    rw [if_neg hne, ← h1, ← h2, ← h3, ← h4, ← h5, initFileSystem_fsdb,
      hbody { g with refreshing := true }, if_neg (fun h => by cases h.2)]

/-- C14 (amended) with the owner `bob` and the file `dbfs.config`
configured: the first load is the load by owner, and the refresh returns
with the cache `loadDbByList` builds from the file. -/
theorem load_mode_follows_refreshing_flag_witness :
    (initFileSystem Example.dbfsOwnerAndFile
        { refreshing := false, running := 0, fsdb := [] } Example.ds
        "db".toList "u".toList "127.0.0.1".toList "5432".toList "p".toList).2.1.fsdb =
      (loadDbByOwner { Example.dbfsOwnerAndFile.dbconn with
          connectionString := connectionStringOf "db".toList "u".toList
            "127.0.0.1".toList "5432".toList "p".toList }
        Example.ds [] Example.dbfsOwnerAndFile.owner).1 ∧
    ∃ self1 g1, refreshHdlr Example.dbfsOwnerAndFile Example.statics Example.ds =
        .returns self1 g1 ∧
      g1.fsdb =
        (loadDbByList { Example.dbfsOwnerAndFile.dbconn with
            connectionString := connectionStringOf "db".toList "u".toList
              "127.0.0.1".toList "5432".toList "p".toList }
          Example.ds Example.statics.fsdb
          Example.dbfsOwnerAndFile.configurationFile).1 :=
  ⟨(load_mode_follows_refreshing_flag Example.dbfsOwnerAndFile
      { refreshing := false, running := 0, fsdb := [] } Example.ds
      "db".toList "u".toList "127.0.0.1".toList "5432".toList "p".toList rfl).1
      rfl (by decide),
   _, _, rfl,
   (load_mode_follows_refreshing_flag Example.dbfsOwnerAndFile Example.statics
      Example.ds "db".toList "u".toList "127.0.0.1".toList "5432".toList
      "p".toList rfl).2.2.2 rfl rfl rfl rfl rfl (by decide) (by decide) (by decide)
      (by decide) (by decide) _ _ rfl⟩

end dbfs

namespace dbfs
open dbfsutils

namespace Sync

theorem stepHdlr_op (s s1 : Sys) (h : stepHdlr s = some s1) : s1.op = s.op := by
  unfold stepHdlr at h
  split at h
  · injection h with h; rw [← h]
  · split at h
    · injection h with h; rw [← h]
    · injection h with h; rw [← h]
  · injection h with h; rw [← h]
  · split at h
    · injection h with h; rw [← h]
    · cases h
  · injection h with h; rw [← h]
  · cases h

theorem stepOp_stale (lockInTry : Bool) (s s1 : Sys) (hrefr : s.op.refr = true)
    (hpc : beforeGate s.op.pc = true) (h : stepOp lockInTry s = some s1) :
    s1.op.refr = true ∧ beforeGate s1.op.pc = true := by
  unfold stepOp at h
  cases hp : s.op.pc with
  | lock =>
    rw [hp] at h
    dsimp only at h
    cases hm : s.mutex with
    | none =>
      rw [hm] at h
      injection h with h
      rw [← h]
      exact ⟨hrefr, rfl⟩
    | some w => rw [hm] at h; cases h
  | gate =>
    rw [hp] at h
    dsimp only at h
    rw [if_pos hrefr] at h
    injection h with h
    rw [← h]
    exact ⟨hrefr, rfl⟩
  | waiting =>
    rw [hp] at h
    dsimp only at h
    cases hm : s.mutex with
    | none =>
      rw [hm] at h
      injection h with h
      rw [← h]
      exact ⟨hrefr, rfl⟩
    | some w => rw [hm] at h; cases h
  | readFlag => rw [hp] at hpc; cases hpc
  | loadRunning => rw [hp] at hpc; cases hpc
  | storeRunning => rw [hp] at hpc; cases hpc
  | body => rw [hp] at hpc; cases hpc
  | loadLeave => rw [hp] at hpc; cases hpc
  | storeLeave => rw [hp] at hpc; cases hpc
  | done => rw [hp] at hpc; cases hpc

theorem run_stale (lockInTry : Bool) :
    ∀ (schedule : List Who) (s s1 : Sys), s.op.refr = true →
      beforeGate s.op.pc = true → run lockInTry schedule s = some s1 →
      s1.op.refr = true ∧ beforeGate s1.op.pc = true
  | [], s, s1, hrefr, hpc, h => by
    injection h with h
    rw [← h]
    exact ⟨hrefr, hpc⟩
  | w :: ws, s, s1, hrefr, hpc, h => by
    unfold run at h
    cases hs : step lockInTry w s with
    | none => rw [hs] at h; cases h
    | some s2 =>
      rw [hs] at h
      dsimp only at h
      cases w with
      | op =>
        have h2 := stepOp_stale lockInTry s s2 hrefr hpc hs
        exact run_stale lockInTry ws s2 s1 h2.1 h2.2 h
      | hdlr =>
        have h2 : s2.op = s.op := stepHdlr_op s s2 hs
        exact run_stale lockInTry ws s2 s1 (by rw [h2]; exact hrefr)
          (by rw [h2]; exact hpc) h

end Sync

/-- C16 (evaluated at a failing interleaving): the operation reads
`refreshing` as false, the handler then sets the flag, reads `running` as 0
and enters `refreshDb`, and the operation goes on through the gate and
increments `running`: it is inside its body while the reload rewrites the
cache, whether its lock lives in the `try` block or in the function. -/
theorem gate_check_and_increment_interleave :
    Sync.run true [.op, .hdlr, .hdlr, .op, .op, .op, .op] Sync.init =
      some { refreshing := true, running := 1, mutex := some .op,
             op := { pc := .body, refr := false, loaded := 0 },
             hdlr := .reloading } ∧
    Sync.run false [.op, .hdlr, .hdlr, .op, .op, .op, .op] Sync.init =
      some { refreshing := true, running := 1, mutex := some .op,
             op := { pc := .body, refr := false, loaded := 0 },
             hdlr := .reloading } ∧
    Sync.inFlight Sync.OpPc.body = true := by
  refine ⟨by decide, by decide, rfl⟩

/-- C17 (evaluated at a failing interleaving): an operation that reads
`refreshing` as true waits; the handler reloads, notifies and stores
`refreshing = false`; the operation wakes, tests its local `refr`, which is
still true, and waits again. From there on, whatever the order of the
steps, it never gets past the gate. Run on its own with `refreshing` true,
each callback blocks. -/
theorem stale_flag_keeps_operation_at_gate :
    Sync.run true [.hdlr, .op, .hdlr, .hdlr, .op, .op, .hdlr, .hdlr, .op, .op]
      Sync.init = some Example.stalled ∧
    Sync.run false [.hdlr, .op, .hdlr, .hdlr, .op, .op, .hdlr, .hdlr, .op, .op]
      Sync.init = some Example.stalled ∧
    Example.stalled.refreshing = false ∧ Example.stalled.hdlr = .done ∧
    (∀ (lockInTry : Bool) (schedule : List Sync.Who) (s : Sync.Sys),
      Sync.run lockInTry schedule Example.stalled = some s →
      Sync.beforeGate s.op.pc = true ∧ Sync.inFlight s.op.pc = false ∧
        s.op.pc ≠ .done) ∧
    (∀ (g : Statics) (path : Str) (size : Nat) (offset : Int),
      g.refreshing = true →
      getattrCb g path = .blocks ∧ readdirCb g path = .blocks ∧
        readCb g path size offset = .blocks) := by
  refine ⟨by decide, by decide, rfl, rfl, ?_, ?_⟩
  · intro lockInTry schedule s h
    have h2 := (Sync.run_stale lockInTry schedule Example.stalled s rfl rfl h).2
    cases hp : s.op.pc <;> rw [hp] at h2 <;> simp [Sync.beforeGate, Sync.inFlight] at h2 ⊢
  · intro g path size offset hrefr
    refine ⟨?_, ?_, ?_⟩
    · unfold getattrCb; rw [if_pos hrefr]
    · unfold readdirCb; rw [if_pos hrefr]
    · unfold readCb; rw [if_pos hrefr]

/-- C18 (evaluated at failing inputs): when the connection is refused at
startup, and when the query of a listed table is rejected, `main` writes
the message of the `DbConnExc` to `cerr` and returns 0; whenever
`initFileSystem` lets a `DbConnExc` out, `main` returns its `fuseErr`, still
0. -/
theorem main_returns_zero_on_failed_start :
    main Example.mainEnvDown Example.options =
      .exits 0 ["Connection Error".toList] ∧
    main Example.mainEnvUp { Example.options with cfgFile := "two.config".toList } =
      .exits 0 ["Query Error: relation does not exist".toList] ∧
    (∀ (env : MainEnv) (o : Options) (ex : DbConnExc),
      main env o ≠ .exits 1 [usage] →
      main env o ≠ .exits 1 ["Invalid parameter(s).".toList, usage] →
      env.sigactionFails = false →
      (initFileSystem
        (Dbfs.new o.mountpoint
          (if o.tablesOwner.length ≠ 0 then o.cfgFile
            else if o.cfgFile.length = 0 then DBFS_CONF_FILE else o.cfgFile)
          o.tablesOwner env.uid env.gid)
        { refreshing := false, running := 0, fsdb := [] } env.ds
        o.dbname o.user o.address o.port o.pwd).2.2 = .error (.byValue ex) →
      ∃ cerr, main env o = .exits 0 (cerr ++ [ex.errorMessage])) := by
  refine ⟨by decide, by decide, ?_⟩
  intro env o ex h1 h2 hsig hinit
  unfold main at h1 h2 ⊢
  by_cases hh : o.help = true
  · rw [if_pos hh] at h1
    exact absurd rfl h1
  · rw [if_neg hh] at h2 ⊢
    by_cases hv : o.mountpoint.length = 0 ∨ o.dbname.length = 0 ∨ o.user.length = 0 ∨
        o.address.length = 0 ∨ o.leftover = true
    · rw [if_pos hv] at h2
      exact absurd rfl h2
    · rw [if_neg hv]
      simp only [hsig, hinit]
      exact ⟨_, rfl⟩

end dbfs

/-! ## The claims on wrapping sizes, the handler's exits and the listing -/

namespace dbfs
open dbfsutils

theorem refreshHdlr_eq_after (self : Dbfs) (g : Statics) (ds : DataSource) :
    refreshHdlr self g ds =
      if g.running ≠ 0 then .waits
      else refreshHdlrAfter (refreshDb self { g with refreshing := true } ds) := rfl

/-- C21 (evaluated at the failing input): on the 16-byte table `users`, at
offset 1 with size `2^64 - 1`, the sum `offset + size` wraps to 0, which is
not above the length, so `readCb` takes the branch of the full read: the
value it assigns to `ret` is `size` converted to `int`, that is `-1`, and
the range it copies ends at `data + 2^64`, outside the content. -/
theorem readCb_wrapping_size_escapes_clamp :
    (toSizeT 1 + (2 ^ 64 - 1)) % 2 ^ 64 = 0 ∧
    toInt (2 ^ 64 - 1) = -1 ∧
    copy Example.users.data (toSizeT 1) (toSizeT 1 + (2 ^ 64 - 1)) = none ∧
    readFound Example.users (2 ^ 64 - 1) 1 = none ∧
    readCb Example.statics "/users".toList (2 ^ 64 - 1) 1 = .undefined := by
  refine ⟨by decide, by decide, by decide, by decide, ?_⟩
  rw [readCb_found Example.statics "/users".toList Example.users (2 ^ 64 - 1) 1 rfl
    (by decide)]
  have h : readFound Example.users (2 ^ 64 - 1) 1 = none := by decide
  rw [h]

/-- C22 (evaluated at the failing input): when the call of `refreshDb` ends
in an exception derived from `std::exception`, the handler catches it,
reports it and returns with `refreshing` still true, so every later
operation blocks; when the call returns, with true or false, the handler
returns with `refreshing` false. -/
theorem refreshHdlr_caught_exception_keeps_flag :
    refreshHdlrAfter (Example.dbfsByList,
        { Example.statics with refreshing := true },
        .error (.stdException "std::bad_alloc".toList)) =
      .returns Example.dbfsByList { Example.statics with refreshing := true } ∧
    (genericExcPtrHdlr (some (.stdException "std::bad_alloc".toList))) =
      (none, ["- Caught Unexpected Exception : std::bad_alloc".toList]) ∧
    (∀ (self : Dbfs) (g : Statics) (what : Str),
      refreshHdlrAfter (self, g, .error (.stdException what)) = .returns self g) ∧
    (∀ (self : Dbfs) (g : Statics) (b : Bool),
      refreshHdlrAfter (self, g, .ok b) = .returns self { g with refreshing := false }) ∧
    (∀ (self : Dbfs) (g : Statics) (ds : DataSource), g.running = 0 →
      refreshHdlr self g ds =
        refreshHdlrAfter (refreshDb self { g with refreshing := true } ds)) ∧
    (∀ (path : Str),
      getattrCb { Example.statics with refreshing := true } path = .blocks) := by
  refine ⟨rfl, by decide, fun _ _ _ => rfl, fun _ _ _ => rfl, ?_, fun _ => rfl⟩
  intro self g ds hrun
  rw [refreshHdlr_eq_after, if_neg (fun h => h hrun)]

/-- C23: `loadTable` completes without raising if and only if the status of
the query result is `PGRES_TUPLES_OK` or `PGRES_COMMAND_OK`; for every other
status it raises a `DbConnExc`, so an empty query and a non-fatal error are
both raised. -/
theorem loadTable_completes_iff_status_ok (conn : PsqlConnection) (ds : DataSource)
    (tableName : TableName) (tableAttr : TableAttr) :
    ((∃ loaded, loadTable conn ds tableName tableAttr = .ok loaded) ↔
      ((tableQuery ds tableName).status = .PGRES_TUPLES_OK ∨
        (tableQuery ds tableName).status = .PGRES_COMMAND_OK)) ∧
    (¬ ((tableQuery ds tableName).status = .PGRES_TUPLES_OK ∨
        (tableQuery ds tableName).status = .PGRES_COMMAND_OK) →
      ∃ ex, loadTable conn ds tableName tableAttr = .error (.byValue ex)) ∧
    (((tableQuery ds tableName).status = .PGRES_EMPTY_QUERY ∨
        (tableQuery ds tableName).status = .PGRES_NONFATAL_ERROR ∨
        (tableQuery ds tableName).status = .PGRES_BAD_RESPONSE ∨
        (tableQuery ds tableName).status = .PGRES_FATAL_ERROR) →
      ∃ ex, loadTable conn ds tableName tableAttr = .error (.byValue ex)) := by
  have hbad : ¬ queryOk ds tableName →
      ∃ ex, loadTable conn ds tableName tableAttr = .error (.byValue ex) := by
    intro h
    rw [loadTable_eq, if_neg h]
    exact ⟨_, rfl⟩
  refine ⟨⟨?_, ?_⟩, hbad, ?_⟩
  · rintro ⟨loaded, h⟩
    by_contra hq
    obtain ⟨ex, he⟩ := hbad hq
    rw [he] at h
    cases h
  · intro hq
    have hq' : queryOk ds tableName := hq
    exact ⟨_, by rw [loadTable_eq, if_pos hq']⟩
  · intro hs
    apply hbad
    intro hq
    rcases hq with hq | hq <;> rcases hs with hs | hs | hs | hs <;>
      · rw [hq] at hs
        cases hs

/-- C23 on a server that answers an empty query: `loadTable` raises, with
the text of the non-fatal arm. -/
theorem loadTable_completes_iff_status_ok_witness :
    (tableQuery Example.dsEmptyQuery "users".toList).status = .PGRES_EMPTY_QUERY ∧
    (∃ ex, loadTable Example.conn Example.dsEmptyQuery "users".toList
      TableAttr.default = .error (.byValue ex)) ∧
    loadTable Example.conn Example.dsEmptyQuery "users".toList TableAttr.default =
      .error (.byValue (DbConnExc.ofString
        "Query Error: Nofatal Error: relation does not exist".toList)) ∧
    ∃ loaded, loadTable Example.conn Example.ds "users".toList TableAttr.default =
      .ok loaded :=
  ⟨rfl,
   (loadTable_completes_iff_status_ok Example.conn Example.dsEmptyQuery
      "users".toList TableAttr.default).2.2 (Or.inl rfl),
   by rw [loadTable_eq, if_neg (by decide)]; rfl,
   (loadTable_completes_iff_status_ok Example.conn Example.ds "users".toList
      TableAttr.default).1.mpr (Or.inl rfl)⟩

end dbfs

namespace dbfs
open dbfsutils

theorem initFileSystem_stores_parameters (self : Dbfs) (g : Statics) (ds : DataSource)
    (dbname user address port pwd : Str) :
    (initFileSystem self g ds dbname user address port pwd).1.dbName = dbname ∧
    (initFileSystem self g ds dbname user address port pwd).1.userName = user ∧
    (initFileSystem self g ds dbname user address port pwd).1.dbAddress = address ∧
    (initFileSystem self g ds dbname user address port pwd).1.dbPort = port ∧
    (initFileSystem self g ds dbname user address port pwd).1.dbPwd = pwd := by
  unfold initFileSystem
  dsimp only
  split <;> exact ⟨rfl, rfl, rfl, rfl, rfl⟩

/-- C24: `refreshDb` calls `initFileSystem`, with the five stored
parameters, only when all five are non-empty; if any of them is empty it
returns false and leaves the object, the cache and the other statics as
they were. `initFileSystem` stores the port and the password it is given,
and `main` accepts an empty port and an empty password. -/
theorem refreshDb_needs_all_parameters (self : Dbfs) (g : Statics) (ds : DataSource) :
    ((self.dbName = [] ∨ self.userName = [] ∨ self.dbAddress = [] ∨
        self.dbPort = [] ∨ self.dbPwd = []) →
      refreshDb self g ds = (self, g, .ok false)) ∧
    ((self.dbName ≠ [] ∧ self.userName ≠ [] ∧ self.dbAddress ≠ [] ∧
        self.dbPort ≠ [] ∧ self.dbPwd ≠ []) →
      refreshDb self g ds =
        initFileSystem self g ds self.dbName self.userName self.dbAddress
          self.dbPort self.dbPwd) ∧
    (∀ (g0 : Statics) (ds0 : DataSource) (dbname user address port pwd : Str),
      (port = [] ∨ pwd = []) →
      refreshDb (initFileSystem self g0 ds0 dbname user address port pwd).1 g ds =
        ((initFileSystem self g0 ds0 dbname user address port pwd).1, g, .ok false)) ∧
    main Example.mainEnvMounted { Example.options with port := [], pwd := [] } =
      .exits 3 [] := by
  have hempty : ∀ (d : Dbfs), (d.dbName = [] ∨ d.userName = [] ∨ d.dbAddress = [] ∨
      d.dbPort = [] ∨ d.dbPwd = []) → refreshDb d g ds = (d, g, .ok false) := by
    intro d h
    unfold refreshDb
    rw [if_pos]
    rcases h with h | h | h | h | h
    · exact Or.inl (by rw [h]; rfl)
    · exact Or.inr (Or.inl (by rw [h]; rfl))
    · exact Or.inr (Or.inr (Or.inl (by rw [h]; rfl)))
    · exact Or.inr (Or.inr (Or.inr (Or.inl (by rw [h]; rfl))))
    · exact Or.inr (Or.inr (Or.inr (Or.inr (by rw [h]; rfl))))
  refine ⟨hempty self, ?_, ?_, by decide⟩
  · rintro ⟨h1, h2, h3, h4, h5⟩
    unfold refreshDb
    rw [if_neg]
    rintro (h | h | h | h | h)
    · exact h1 (List.length_eq_zero.mp h)
    · exact h2 (List.length_eq_zero.mp h)
    · exact h3 (List.length_eq_zero.mp h)
    · exact h4 (List.length_eq_zero.mp h)
    · exact h5 (List.length_eq_zero.mp h)
  · intro g0 ds0 dbname user address port pwd h
    have hs := initFileSystem_stores_parameters self g0 ds0 dbname user address port pwd
    apply hempty
    rcases h with h | h
    · exact Or.inr (Or.inr (Or.inr (Or.inl (by rw [hs.2.2.2.1]; exact h))))
    · exact Or.inr (Or.inr (Or.inr (Or.inr (by rw [hs.2.2.2.2]; exact h))))

/-- C24 on the object `main` leaves when started without `-p` and `-P`: the
start succeeds and a later `refreshDb` returns false, the cache untouched. -/
theorem refreshDb_needs_all_parameters_witness :
    main Example.mainEnvMounted { Example.options with port := [], pwd := [] } =
      .exits 3 [] ∧
    refreshDb
      (initFileSystem Example.dbfsByList Example.statics Example.ds
        "db".toList "u".toList "127.0.0.1".toList [] []).1
      Example.staticsTwo Example.ds =
      ((initFileSystem Example.dbfsByList Example.statics Example.ds
        "db".toList "u".toList "127.0.0.1".toList [] []).1,
       Example.staticsTwo, .ok false) :=
  have h := refreshDb_needs_all_parameters Example.dbfsByList Example.staticsTwo
    Example.ds
  ⟨h.2.2.2, h.2.2.1 Example.statics Example.ds "db".toList "u".toList
    "127.0.0.1".toList [] [] (Or.inl rfl)⟩

/-- C25: with no refresh in progress, for every cache and every table name
`n` that `readdirCb` emits after `.` and `..`, if `n` is non-empty and has no
`/` then `getattrCb("/" + n)` returns 0 with the `stat` stored for `n`; so a
listed name for which that lookup misses is empty or contains `/`. -/
theorem listed_name_is_found (g : Statics) (path n : Str)
    (hidle : g.refreshing = false)
    (hlisted : ∃ s r names, readdirCb g path = .returns (s, r, names) ∧
      n ∈ names.drop 2) :
    ((n ≠ [] ∧ '/' ∉ n) →
      ∃ file, TableList.find n g.fsdb = some file ∧ (n, file) ∈ g.fsdb ∧
        getattrCb g (ROOT_DIR ++ n) = .returns (g.enter.leave, 0, file.sstat)) ∧
    ((¬ ∃ file, TableList.find n g.fsdb = some file ∧
        getattrCb g (ROOT_DIR ++ n) = .returns (g.enter.leave, 0, file.sstat)) →
      n = [] ∨ '/' ∈ n) := by
  have hkey : n ∈ TableList.keys g.fsdb := by
    obtain ⟨s, r, names, hret, hn⟩ := hlisted
    have hval : readdirCb g path =
        .returns (g.enter.leave, 0,
          ".".toList :: "..".toList :: TableList.keys g.fsdb) := by
      unfold readdirCb
      simp only [hidle]
      rfl
    rw [hval] at hret
    injection hret with hret
    have hnames : names = ".".toList :: "..".toList :: TableList.keys g.fsdb :=
      (congrArg (fun p => p.2.2) hret).symm
    rw [hnames] at hn
    exact hn
  have hhit : (n ≠ [] ∧ '/' ∉ n) →
      ∃ file, TableList.find n g.fsdb = some file ∧ (n, file) ∈ g.fsdb ∧
        getattrCb g (ROOT_DIR ++ n) = .returns (g.enter.leave, 0, file.sstat) := by
    rintro ⟨hne, hslash⟩
    have hpath : ROOT_DIR ++ n = [] ++ '/' :: n := rfl
    have hlast : lastComponent (ROOT_DIR ++ n) = n := by
      rw [hpath]; exact lastComponent_sep [] n hslash
    have hroot : ROOT_DIR ++ n ≠ ROOT_DIR := by
      intro h
      have hl := congrArg List.length h
      rw [List.length_append] at hl
      have : n.length = 0 := by omega
      exact hne (List.length_eq_zero.mp this)
    cases hf : TableList.find n g.fsdb with
    | none => exact absurd hkey ((TableList.find_eq_none_iff _ _).mp hf)
    | some file =>
      refine ⟨file, rfl, TableList.mem_of_find_eq_some _ _ _ hf, ?_⟩
      exact getattrCb_found g (ROOT_DIR ++ n) file hidle hroot (by rw [hlast]; exact hf)
  refine ⟨hhit, ?_⟩
  intro hmiss
  by_contra hcon
  have hne : n ≠ [] := fun h => hcon (Or.inl h)
  have hslash : '/' ∉ n := fun h => hcon (Or.inr h)
  obtain ⟨file, hf, _, hget⟩ := hhit ⟨hne, hslash⟩
  exact hmiss ⟨file, hf, hget⟩

/-- C25 on the cache holding the names ``, `a/b` and `users`: `/users` is
found with the stored `stat`, while `/` answers with the directory
attributes and `/a/b` with `-ENOENT`. -/
theorem listed_name_is_found_witness :
    (∃ file, TableList.find "users".toList Example.staticsOddNames.fsdb = some file ∧
      ("users".toList, file) ∈ Example.staticsOddNames.fsdb ∧
      getattrCb Example.staticsOddNames (ROOT_DIR ++ "users".toList) =
        .returns (Example.staticsOddNames.enter.leave, 0, file.sstat)) ∧
    getattrCb Example.staticsOddNames (ROOT_DIR ++ []) =
      .returns (Example.staticsOddNames.enter.leave, 0,
        { Stat.zero with st_mode := S_IFDIR ||| 0o777, st_nlink := 2 }) ∧
    getattrCb Example.staticsOddNames (ROOT_DIR ++ "a/b".toList) =
      .returns (Example.staticsOddNames.enter.leave, -ENOENT, Stat.zero) :=
  ⟨(listed_name_is_found Example.staticsOddNames "/".toList "users".toList rfl
      ⟨_, _, _, rfl, by decide⟩).1 ⟨by decide, by decide⟩,
   rfl,
   getattrCb_missing Example.staticsOddNames (ROOT_DIR ++ "a/b".toList) rfl
     (by decide) (by decide)⟩

end dbfs
